import Mathlib

/-!
Verification of the manga document layer (manga.py): a shallow embedding of
its field descriptors, document construction/validation engine, collection
registry and persistence operations, with theorems checking the spec's
claims against the embedded code.

Conventions: Python values are embedded as `PyVal`; Python exceptions as
`PErr` (`AssertionError`, `KeyError`, ... and the library's
`ValidationError` carrying the field name and offending stored value).
Fallible code returns `Except PErr _`.  Python `datetime` objects are
`DT` records (seconds, microseconds, tz-awareness).  The module runs on
Python 3 (setup.py refuses Python 2), so `/` in `milli_trim` is float
division; `roundStep`/`pyTrim` model IEEE-754 binary64
round-to-nearest-even exactly for the magnitudes that can occur there.
-/

/-- A Python `datetime`: seconds since an epoch, microsecond component,
and whether the value carries a `tzinfo` (timezone-aware). -/
structure DT where
  sec : Int
  usec : Nat
  aware : Bool
deriving DecidableEq, Repr

/-- Binade search over the positive rational `p/q`: returns `k` such that
with `e = k - 30`, `2^e ≤ p/q < 2^(e+1)`; the window `-30 ≤ e < 30` is
ample for every magnitude produced by `milli_trim` (between `2^-10` and
`2^20`).  The comparisons are scaled to stay in `Nat`. -/
def findK : Nat → Nat → Nat → Nat
  | 0, _, _ => 0
  | k+1, p, q => if q * 2^k ≤ p * 2^30 ∧ p * 2^30 < q * 2^(k+1) then k else findK k p q

/-- Round `num/q` to the nearest integer, ties to even. -/
def rne (num q : Nat) : Nat :=
  let d := num / q
  let r := num % q
  if q < 2*r then d+1 else if 2*r < q then d else d + d % 2

/-- Round the positive rational `p/q` to the nearest IEEE-754 binary64
value (round-to-nearest, ties to even), for magnitudes inside the window
of `findK`.  A binary64 in the binade `[2^e, 2^(e+1))` is `m * 2^(e-52)`
with `2^52 ≤ m < 2^53`; with `e = k - 30` the scale factor is
`2^(52-e) = 2^(82-k)`.  Returns `(m, sh)` representing `m / 2^sh`. -/
def roundStep (p q : Nat) : Nat × Nat :=
  let k := findK 60 p q
  let sh := 82 - k
  (rne (p * 2^sh) q, sh)

/-- The microsecond transformation of `milli_trim`:
`int((x.microsecond/1000)*1000)` under Python 3 semantics, i.e. binary64
true division by 1000, binary64 multiplication by 1000, then `int`
truncation (floor, as the value is nonnegative). -/
def pyTrim (n : Nat) : Nat :=
  if n = 0 then 0
  else
    let s1 := roundStep n 1000
    let s2 := roundStep (s1.1 * 1000) (2^s1.2)
    s2.1 / 2^s2.2

/-- `milli_trim`: replace the microsecond component. -/
def milli_trim (t : DT) : DT := { t with usec := pyTrim t.usec }

/-- Embedded Python values, covering the shapes handled by manga:
`None`, strings, integers, datetimes, dicts (insertion-ordered key/value
lists), lists, and `Document` instances (class name plus their `_data`
dict). -/
inductive PyVal where
  | none
  | str (s : String)
  | int (n : Int)
  | dt (t : DT)
  | pydict (entries : List (String × PyVal))
  | pylist (elems : List PyVal)
  | doc (cls : String) (data : List (String × PyVal))

/-- Python truthiness for the embedded values: `None`, `""`, `0`, `{}`,
`[]` are falsy; datetimes and instances are always truthy. -/
def PyVal.truthy : PyVal → Bool
  | .none => false
  | .str s => !s.isEmpty
  | .int n => n != 0
  | .dt _ => true
  | .pydict l => !l.isEmpty
  | .pylist l => !l.isEmpty
  | .doc _ _ => true

/-- `str.strip()` (whitespace from both ends). -/
def pyStrip (s : String) : String :=
  ⟨((s.data.dropWhile Char.isWhitespace).reverse.dropWhile Char.isWhitespace).reverse⟩

/-- The `EmailField` pattern `^[\S]+@[\S]+\.[\S]+$`: no whitespace, and
positions `i < j` with `s[i] = '@'`, `s[j] = '.'`, nonempty runs before
the `'@'`, between, and after the `'.'`. -/
def emailMatch (s : String) : Bool :=
  let cs := s.data
  (!cs.any Char.isWhitespace) &&
    ((List.range cs.length).any fun i =>
      (List.range cs.length).any fun j =>
        decide (1 ≤ i) && decide (i + 2 ≤ j) && decide (j + 2 ≤ cs.length) &&
        (cs.getD i ' ' == '@') && (cs.getD j ' ' == '.'))

/-- `DateTimeField`'s `auto` modes. -/
inductive Auto where
  | created
  | modified
deriving DecidableEq, Repr

/-- The built-in field descriptors of manga, each carrying its configured
`default`, `blank` policy and kind-specific options.  `documentField`
carries the embedded document class (name and field catalog);
`listField` optionally carries an element descriptor. -/
inductive FieldKind where
  | field (default : PyVal) (blank : Bool)
  | stringField (default : PyVal) (blank : Bool) (length : Option (Nat × Nat))
  | emailField (default : PyVal) (blank : Bool) (length : Option (Nat × Nat))
  | dateTimeField (default : PyVal) (blank : Bool) (auto : Option Auto)
  | dictField (default : PyVal) (blank : Bool)
  | documentField (default : PyVal) (blank : Bool) (docCls : String)
      (catalog : List (String × FieldKind))
  | listField (default : PyVal) (blank : Bool) (elem : Option FieldKind)

abbrev DocData := List (String × PyVal)
abbrev Catalog := List (String × FieldKind)

/-- Exceptions: manga's `ValidationError` (field name and offending
value), plus the Python exceptions the engine can surface
(`AssertionError`, `KeyError`, `AttributeError`, `TypeError`), and the
bare `Exception` raised by `Model.delete` without an identity. -/
inductive PErr where
  | validation (attr : String) (val : PyVal)
  | assertion
  | keyError
  | attributeError
  | typeError
  | deleteWithoutIdentity

/-- Association-list lookup, first match wins (Python dict lookup). -/
def alookup {α : Type} : List (String × α) → String → Option α
  | [], _ => Option.none
  | (k', v) :: t, k => if k' = k then some v else alookup t k

/-- Python dict item assignment `d[k] = v`: replaces in place if the key
is present, else appends (insertion order). -/
def updKey {α : Type} : List (String × α) → String → α → List (String × α)
  | [], k, v => [(k, v)]
  | (k', v') :: t, k, v => if k' = k then (k, v) :: t else (k', v') :: updKey t k v

/-- Python truthiness of an optional dict argument (`None` and `{}` are
both falsy). -/
def dTruthy {α : Type} : Option (List α) → Bool
  | Option.none => false
  | some l => !l.isEmpty

/-- `Field.default` evaluation at construction time: `DateTimeField`
with `auto` in `{'created','modified'}` replaces the default by
`lambda: datetime.now(UTC())`; all other defaults are plain values. -/
def fieldDefault (now : DT) : FieldKind → PyVal
  | .field d _ => d
  | .stringField d _ _ => d
  | .emailField d _ _ => d
  | .dateTimeField d _ auto => if auto.isSome then .dt now else d
  | .dictField d _ => d
  | .documentField d _ _ _ => d
  | .listField d _ _ => d

/-- `pre_save_val`: only `DateTimeField(auto='modified')` injects a
fresh `datetime.now(UTC())`; every other descriptor returns `None`. -/
def preSaveVal (now : DT) : FieldKind → PyVal
  | .dateTimeField _ _ (some .modified) => .dt now
  | _ => .none

/-- `blank` attribute of a descriptor. -/
def kindBlank : FieldKind → Bool
  | .field _ b => b
  | .stringField _ b _ => b
  | .emailField _ b _ => b
  | .dateTimeField _ b _ => b
  | .dictField _ b => b
  | .documentField _ b _ _ => b
  | .listField _ b _ => b

/-- `StringField.validate` (also the first half of
`EmailField.validate`): must be a `str`; if not blank, the stripped form
must be non-empty; an optional inclusive length range is checked on the
stripped length. -/
def strValidate (blank : Bool) (length : Option (Nat × Nat)) : PyVal → Except PErr Unit
  | .str s =>
      if !blank && (pyStrip s).isEmpty then .error .assertion
      else
        match length with
        | some (lo, hi) =>
            let L := (pyStrip s).length
            if lo ≤ L && L ≤ hi then .ok () else .error .assertion
        | Option.none => .ok ()
  | _ => .error .assertion

mutual

/-- `to_storage` of each field kind.  `StringField` strips (and raises
`AttributeError` on a non-string, as `value.strip()` would);
`DateTimeField` applies `milli_trim` to truthy values and stores `None`
otherwise; `DocumentField` stores `getattr(value, '_data', None)`;
`ListField` maps its element descriptor's `to_storage` when present. -/
def toStorageE : FieldKind → PyVal → Except PErr PyVal
  | .field _ _, v => .ok v
  | .stringField _ _ _, v =>
      match v with
      | .str s => .ok (.str (pyStrip s))
      | _ => .error .attributeError
  | .emailField _ _ _, v =>
      match v with
      | .str s => .ok (.str (pyStrip s))
      | _ => .error .attributeError
  | .dateTimeField _ _ _, v =>
      if v.truthy then
        match v with
        | .dt t => .ok (.dt (milli_trim t))
        | _ => .error .attributeError
      else .ok .none
  | .dictField _ _, v => .ok v
  | .documentField _ _ _ _, v =>
      match v with
      | .doc _ d => .ok (.pydict d)
      | _ => .ok .none
  | .listField _ _ elem, v =>
      match elem with
      | some f =>
          match v with
          | .pylist l =>
              match storageList f l with
              | .error e => .error e
              | .ok l' => .ok (.pylist l')
          | _ => .error .typeError
      | Option.none => .ok v
termination_by k v => (sizeOf k, 0)

/-- Element-wise `to_storage` of `ListField`. -/
def storageList (f : FieldKind) : List PyVal → Except PErr (List PyVal)
  | [] => .ok []
  | v :: t =>
      match toStorageE f v with
      | .error e => .error e
      | .ok v' =>
          match storageList f t with
          | .error e => .error e
          | .ok t' => .ok (v' :: t')
termination_by l => (sizeOf f, 1 + sizeOf l)

end

mutual

/-- `validate` of each field kind; a failed `assert` is
`PErr.assertion`. -/
def validateE (now : DT) : FieldKind → PyVal → Except PErr Unit
  | .field _ blank, v =>
      if !blank && !v.truthy then .error .assertion else .ok ()
  | .stringField _ blank len, v => strValidate blank len v
  | .emailField _ blank len, v =>
      match strValidate blank len v with
      | .error e => .error e
      | .ok () =>
          match v with
          | .str s => if emailMatch s then .ok () else .error .assertion
          | _ => .error .assertion
  | .dateTimeField _ blank _, v =>
      if !blank && !v.truthy then .error .assertion
      else
        match v with
        | .dt t => if t.aware then .ok () else .error .assertion
        | .none => .ok ()
        | _ => .error .assertion
  | .dictField _ blank, v =>
      match v with
      | .pydict l => if !blank && l.isEmpty then .error .assertion else .ok ()
      | _ => .error .assertion
  | .documentField _ blank cls cat, v =>
      if !blank && !v.truthy then .error .assertion
      else if v.truthy then
        match v with
        | .doc c d => if c = cls then docValidateE now d [] cat else .error .assertion
        | _ => .error .assertion
      else
        match v with
        | .none => .ok ()
        | _ => .error .assertion
  | .listField _ blank elem, v =>
      match v with
      | .pylist l =>
          if !blank && l.isEmpty then .error .assertion
          else
            match elem with
            | some f => validateList now f l
            | Option.none => .ok ()
      | _ => .error .assertion
termination_by k v => (sizeOf k, 0)

/-- Element-wise validation of `ListField`. -/
def validateList (now : DT) (f : FieldKind) : List PyVal → Except PErr Unit
  | [] => .ok ()
  | v :: t =>
      match validateE now f v with
      | .error e => .error e
      | .ok () => validateList now f t
termination_by l => (sizeOf f, 1 + sizeOf l)

/-- `to_python` of each field kind.  `DocumentField` reconstructs via
`document_class(son=value)` (running the full construction algorithm);
`ListField` maps its element descriptor's `to_python`; everything else
is the identity. -/
def toPythonE (now : DT) : FieldKind → PyVal → Except PErr PyVal
  | .field _ _, v => .ok v
  | .stringField _ _ _, v => .ok v
  | .emailField _ _ _, v => .ok v
  | .dateTimeField _ _ _, v => .ok v
  | .dictField _ _, v => .ok v
  | .documentField _ _ cls cat, v =>
      match v with
      | .pydict d =>
          match docInitE now cat Option.none (some d) with
          | .error e => .error e
          | .ok d' => .ok (.doc cls d')
      | .none =>
          match docInitE now cat Option.none Option.none with
          | .error e => .error e
          | .ok d' => .ok (.doc cls d')
      | _ => .error .typeError
  | .listField _ _ elem, v =>
      match elem with
      | some f =>
          match v with
          | .pylist l =>
              match pythonList now f l with
              | .error e => .error e
              | .ok l' => .ok (.pylist l')
          | _ => .error .typeError
      | Option.none => .ok v
termination_by k v => (sizeOf k, 0)

/-- Element-wise `to_python` of `ListField`. -/
def pythonList (now : DT) (f : FieldKind) : List PyVal → Except PErr (List PyVal)
  | [] => .ok []
  | v :: t =>
      match toPythonE now f v with
      | .error e => .error e
      | .ok v' =>
          match pythonList now f t with
          | .error e => .error e
          | .ok t' => .ok (v' :: t')
termination_by l => (sizeOf f, 1 + sizeOf l)

/-- The per-field value resolution of `Document.__init__`: the raw value
round-tripped through `to_python` when a truthy raw document contains
the field, else the seed value when truthy seed values contain it, else
the (evaluated) default. -/
def initVal (now : DT) (data son : Option DocData) (fname : String)
    (k : FieldKind) : Except PErr PyVal :=
  if dTruthy son && (alookup (son.getD []) fname).isSome then
    toPythonE now k ((alookup (son.getD []) fname).getD .none)
  else if dTruthy data && (alookup (data.getD []) fname).isSome then
    .ok ((alookup (data.getD []) fname).getD .none)
  else
    .ok (fieldDefault now k)
termination_by (sizeOf k, 1)

/-- The field loop of `Document.__init__`: builds `_data` (in catalog
order) and the `validate_exempt` list (fields whose value is falsy while
no truthy raw document was given). -/
def initFields (now : DT) (data son : Option DocData) :
    Catalog → Except PErr (DocData × List String)
  | [] => .ok ([], [])
  | (fname, k) :: t =>
      match initVal now data son fname k with
      | .error e => .error e
      | .ok val =>
          let ex1 : List String :=
            if !dTruthy son && !val.truthy then [fname] else []
          match
            (if dTruthy son then .ok ((alookup (son.getD []) fname).getD .none)
             else toStorageE k val : Except PErr PyVal) with
          | .error e => .error e
          | .ok stored =>
              match initFields now data son t with
              | .error e => .error e
              | .ok (d, ex) => .ok ((fname, stored) :: d, ex1 ++ ex)
termination_by cat => (sizeOf cat, 2)

/-- `Document.validate(exclude)`: for every non-excluded catalog field,
convert the stored value back through `to_python` and run `validate`;
an `AssertionError` from either is re-raised as a `ValidationError`
naming the field and the stored value; other exceptions (including a
`KeyError` from a missing `_data` entry) propagate unchanged. -/
def docValidateE (now : DT) (d : DocData) (exclude : List String) :
    Catalog → Except PErr Unit
  | [] => .ok ()
  | (fname, k) :: t =>
      if exclude.contains fname then docValidateE now d exclude t
      else
        match alookup d fname with
        | Option.none => .error .keyError
        | some raw =>
            match toPythonE now k raw with
            | .error .assertion => .error (.validation fname raw)
            | .error e => .error e
            | .ok pv =>
                match validateE now k pv with
                | .error .assertion => .error (.validation fname raw)
                | .error e => .error e
                | .ok () => docValidateE now d exclude t
termination_by cat => (sizeOf cat, 1)

/-- `Document.__init__(data, son)`: run the field loop, then a full
validation pass excluding the exempted fields; returns the new `_data`. -/
def docInitE (now : DT) (cat : Catalog) (data son : Option DocData) :
    Except PErr DocData :=
  match initFields now data son cat with
  | .error e => .error e
  | .ok (d, ex) =>
      match docValidateE now d ex cat with
      | .error e => .error e
      | .ok () => .ok d
termination_by (sizeOf cat, 3)

end

/-- The generated property setter (`ModelType.set_maker`): validate the
python value — re-raising a failed assertion as `ValidationError` naming
the attribute and value — then store `to_storage(val)` in `_data`. -/
def setterE (now : DT) (k : FieldKind) (attr : String) (dat : DocData)
    (v : PyVal) : Except PErr DocData :=
  match validateE now k v with
  | .error .assertion => .error (.validation attr v)
  | .error e => .error e
  | .ok () =>
      match toStorageE k v with
      | .error e => .error e
      | .ok sv => .ok (updKey dat attr sv)

/-- The generated property getter (`ModelType.get_maker`):
`to_python(_data.get(attr))`. -/
def getterE (now : DT) (k : FieldKind) (attr : String) (dat : DocData) :
    Except PErr PyVal :=
  toPythonE now k ((alookup dat attr).getD .none)

/-- `Model._id`, declared as `Field(blank=True)`. -/
def idField : FieldKind := .field .none true

/-- The `pre_save` loop of `Model.save`: for every field whose
`pre_save_val()` is truthy, assign it through the generated setter. -/
def preSavePass (now : DT) : Catalog → DocData → Except PErr DocData
  | [], dat => .ok dat
  | (fname, k) :: t, dat =>
      let v := preSaveVal now k
      if v.truthy then
        match setterE now k fname dat v with
        | .error e => .error e
        | .ok dat' => preSavePass now t dat'
      else preSavePass now t dat

/-- `Model.save` up to (but not including) the storage write: run the
`pre_save` loop, then a full validation pass with no exclusions; returns
the `_data` that would then be upserted/inserted. -/
def saveE (now : DT) (cat : Catalog) (dat : DocData) : Except PErr DocData :=
  match preSavePass now cat dat with
  | .error e => .error e
  | .ok dat' =>
      match docValidateE now dat' [] cat with
      | .error e => .error e
      | .ok () => .ok dat'

mutual

/-- Structural (Python `==`) equality of embedded values, used for the
backend's `_id` match in `remove({'_id': ...})`. -/
def pyEqb : PyVal → PyVal → Bool
  | .none, .none => true
  | .str a, .str b => a == b
  | .int a, .int b => a == b
  | .dt a, .dt b => a == b
  | .pydict a, .pydict b => entsEqb a b
  | .pylist a, .pylist b => elemsEqb a b
  | .doc c a, .doc c' b => c == c' && entsEqb a b
  | _, _ => false
termination_by a b => sizeOf a

def entsEqb : List (String × PyVal) → List (String × PyVal) → Bool
  | [], [] => true
  | (k, v) :: t, (k', v') :: t' => k == k' && pyEqb v v' && entsEqb t t'
  | _, _ => false
termination_by a b => sizeOf a

def elemsEqb : List PyVal → List PyVal → Bool
  | [], [] => true
  | v :: t, v' :: t' => pyEqb v v' && elemsEqb t t'
  | _, _ => false
termination_by a b => sizeOf a

end

/-- The in-memory identity of a model instance: `_data.get('_id')`
(`Field.to_python` is the identity). -/
def idOf (dat : DocData) : PyVal := (alookup dat "_id").getD .none

/-- The backend's `db[collection].remove({'_id': i})`: drop every stored
document whose `_id` equals `i`. -/
def removeById (store : List DocData) (i : PyVal) : List DocData :=
  store.filter (fun d => !pyEqb (idOf d) i)

/-- `Model.delete` over an abstract collection contents `store`: with a
truthy identity, remove by identity and clear the in-memory identity
through the `_id` setter; otherwise raise (`DeleteWithoutIdentity`)
touching neither the store nor the instance. -/
def deleteE (now : DT) (store : List DocData) (dat : DocData) :
    List DocData × Except PErr DocData :=
  let i := idOf dat
  if i.truthy then
    match setterE now idField "_id" dat .none with
    | .error e => (removeById store i, .error e)
    | .ok dat' => (removeById store i, .ok dat')
  else
    (store, .error .deleteWithoutIdentity)

/-- `str.lower()` for ASCII names. -/
def lowerChar (c : Char) : Char :=
  if 'A' ≤ c ∧ c ≤ 'Z' then Char.ofNat (c.toNat + 32) else c

def pyLower (s : String) : String := ⟨s.data.map lowerChar⟩

/-- `_ModelManipulator.__init__`'s registration check: the collection
name is the declared type's name lower-cased; raise naming the
conflicting collection if it is already registered, else append it. -/
def registerCollection (reg : List String) (clsName : String) :
    Except String (List String) :=
  let cn := pyLower clsName
  if reg.contains cn then .error cn else .ok (reg ++ [cn])

/-- Python `dict.update`: merge the right dict into the left, replacing
in place on key collision, appending new keys in order. -/
def dictUpd {α : Type} (d e : List (String × α)) : List (String × α) :=
  e.foldl (fun acc p => updKey acc p.1 p.2) d

/-- The `_fields` assembly of `ModelType.__new__`: start from `{}`,
`update` with each base's catalog in base-declaration order, then assign
the type's own declared fields in declaration order. -/
def mkCatalog (baseCatalogs : List Catalog) (own : List (String × FieldKind)) :
    Catalog :=
  dictUpd (baseCatalogs.foldl dictUpd []) own

/-- The outcome of a type declaration (`ModelType.__new__`): its name,
its `_collection` (explicit or the lower-cased type name) and its frozen
field catalog. -/
structure DeclaredModel where
  name : String
  collection : String
  fields : Catalog

/-- `ModelType.__new__`: assemble the catalog and collection name; if
the type derives directly from `Model`, register a manipulator — a
registration conflict aborts the declaration (the error names the
conflicting collection and the registry is unchanged). -/
def declareModel (reg : List String) (name : String)
    (explicitCollection : Option String) (baseCatalogs : List Catalog)
    (own : List (String × FieldKind)) (directModelBase : Bool) :
    Except String (DeclaredModel × List String) :=
  let cat := mkCatalog baseCatalogs own
  let coll := explicitCollection.getD (pyLower name)
  if directModelBase then
    match registerCollection reg name with
    | .error c => .error c
    | .ok reg' => .ok ({ name := name, collection := coll, fields := cat }, reg')
  else
    .ok ({ name := name, collection := coll, fields := cat }, reg)

/-- A value flowing through the manipulator chain on read: still a raw
SON dict, or already reconstructed as a typed instance. -/
inductive SonVal where
  | raw (d : DocData)
  | inst (cls : String) (data : DocData)

/-- One manipulator's `transform_outgoing`: a truthy raw document from
the manipulator's own collection is reconstructed as `cls(son=son)`;
anything else passes through.  (A reconstructed instance reaching a
matching manipulator again would make `fname in son` fail on the
non-iterable instance; unreachable with a duplicate-free registry.) -/
def manipStep (now : DT) (collName : String) (m : String × Catalog)
    (v : SonVal) : Except PErr SonVal :=
  match v with
  | .raw d =>
      if !d.isEmpty && m.1 == collName then
        match docInitE now m.2 Option.none (some d) with
        | .error e => .error e
        | .ok d' => .ok (.inst m.1 d')
      else .ok (.raw d)
  | .inst c d =>
      if m.1 == collName then .error .typeError else .ok (.inst c d)

/-- Run the whole manipulator chain, in registration order. -/
def dispatchList (now : DT) (collName : String) :
    List (String × Catalog) → SonVal → Except PErr SonVal
  | [], v => .ok v
  | m :: t, v =>
      match manipStep now collName m v with
      | .error e => .error e
      | .ok v' => dispatchList now collName t v'

/-- Dispatch of a raw document read from collection `collName` through
all registered manipulators. -/
def dispatchE (now : DT) (reg : List (String × Catalog)) (collName : String)
    (son : DocData) : Except PErr SonVal :=
  dispatchList now collName reg (.raw son)

/-- A fixed "current time" used to instantiate the theorems below on
concrete inputs. -/
def now0 : DT := ⟨0, 0, true⟩

/-- Last-occurrence lookup (the value a sequence of Python dict
assignments leaves for a key). -/
def lastLookup {α : Type} (l : List (String × α)) (k : String) : Option α :=
  alookup l.reverse k

/-- The value `Document.__init__` resolves for a field when no truthy
raw document is given: the seed (`data`) value if present, else the
evaluated default. -/
def seedOrDefault (now : DT) (data : Option DocData) (fname : String)
    (k : FieldKind) : PyVal :=
  if dTruthy data && (alookup (data.getD []) fname).isSome then
    (alookup (data.getD []) fname).getD .none
  else fieldDefault now k

/-- The storage value `Document.__init__` computes for a field when no
truthy raw document is given. -/
def storedOf (now : DT) (data : Option DocData) (fname : String)
    (k : FieldKind) : Except PErr PyVal :=
  toStorageE k (seedOrDefault now data fname k)

/-- Payload of a successful `Except` (junk on errors). -/
def okVal : Except PErr PyVal → PyVal
  | .ok v => v
  | .error _ => .none

/-- Field kinds whose `validate` rejects the resurrected form of a falsy
default outright — all built-ins except `DocumentField` (whose
`to_python(None)` resurrects a default-constructed, truthy, possibly
valid embedded document). -/
def strictKind : FieldKind → Bool
  | .documentField _ _ _ _ => false
  | _ => true

/-- Catalog well-formedness needed for reconstruction: every nested
document catalog (also under list element descriptors) has distinct
field names — automatic for catalogs assembled from Python class
dicts. -/
def kindWF : FieldKind → Bool
  | .field _ _ => true
  | .stringField _ _ _ => true
  | .emailField _ _ _ => true
  | .dateTimeField _ _ _ => true
  | .dictField _ _ => true
  | .documentField _ _ _ cat => decide ((cat.map Prod.fst).Nodup)
  | .listField _ _ elem =>
      match elem with
      | some f => kindWF f
      | Option.none => true
termination_by k => sizeOf k

mutual

/-- Value/descriptor alignment: document values carry the descriptor's
class and exactly its catalog keys in catalog order (true of every
document built by `Document.__init__`), recursively through list
elements.  A `none` under a nested-document descriptor is excluded: its
round trip resurrects a default-constructed document. -/
def wfAligned : FieldKind → PyVal → Bool
  | .field _ _, _ => true
  | .stringField _ _ _, _ => true
  | .emailField _ _ _, _ => true
  | .dateTimeField _ _ _, _ => true
  | .dictField _ _, _ => true
  | .documentField _ _ cls cat, v =>
      match v with
      | .doc c d => c == cls && decide (d.map Prod.fst = cat.map Prod.fst)
      | _ => false
  | .listField _ _ elem, v =>
      match elem with
      | some f =>
          match v with
          | .pylist l => wfList f l
          | _ => true
      | Option.none => true
termination_by k v => (sizeOf k, 0)

def wfList (f : FieldKind) : List PyVal → Bool
  | [] => true
  | v :: t => wfAligned f v && wfList f t
termination_by l => (sizeOf f, 1 + sizeOf l)

end

mutual

/-- The python value `to_python(to_storage(v))` actually produces for a
valid, aligned `v`: identity except that text is stripped, timestamps go
through `milli_trim`, and list elements are transformed element-wise. -/
def expectedRT : FieldKind → PyVal → PyVal
  | .field _ _, v => v
  | .stringField _ _ _, v =>
      match v with
      | .str s => .str (pyStrip s)
      | _ => v
  | .emailField _ _ _, v =>
      match v with
      | .str s => .str (pyStrip s)
      | _ => v
  | .dateTimeField _ _ _, v =>
      match v with
      | .dt t => .dt (milli_trim t)
      | _ => v
  | .dictField _ _, v => v
  | .documentField _ _ _ _, v => v
  | .listField _ _ elem, v =>
      match elem with
      | some f =>
          match v with
          | .pylist l => .pylist (expectedRTList f l)
          | _ => v
      | Option.none => v
termination_by k v => (sizeOf k, 0)

def expectedRTList (f : FieldKind) : List PyVal → List PyVal
  | [] => []
  | v :: t => expectedRT f v :: expectedRTList f t
termination_by l => (sizeOf f, 1 + sizeOf l)

end

/-! ### Sanity checks of the primitive models (values cross-checked
against CPython 3) -/

theorem pyTrim_cpython_checks :
    pyTrim 0 = 0 ∧ pyTrim 1 = 1 ∧ pyTrim 999 = 999 ∧ pyTrim 1001 = 1000 ∧
    pyTrim 1500 = 1500 ∧ pyTrim 2001 = 2001 ∧ pyTrim 123000 = 123000 ∧
    pyTrim 123456 = 123456 ∧ pyTrim 999999 = 999999 := by decide

theorem string_model_checks :
    pyStrip "  asdf  " = "asdf" ∧ emailMatch "asdf@asas.as" = true ∧
    emailMatch "asdf@asas." = false ∧ emailMatch "asdf" = false ∧
    emailMatch "a b@c.d" = false := by decide

/-! ### Association-list lemmas -/

theorem alookup_updKey_self {α : Type} (l : List (String × α)) (k : String) (v : α) :
    alookup (updKey l k v) k = some v := by
  induction l with
  | nil => simp [updKey, alookup]
  | cons p t ih =>
      obtain ⟨k', v'⟩ := p
      by_cases h : k' = k
      · simp [updKey, h, alookup]
      · simp [updKey, h, alookup, ih]

theorem alookup_updKey_ne {α : Type} (l : List (String × α)) (k k' : String) (v : α)
    (h : k' ≠ k) : alookup (updKey l k v) k' = alookup l k' := by
  have h' : ¬ (k = k') := fun hh => h hh.symm
  induction l with
  | nil => simp [updKey, alookup, h']
  | cons p t ih =>
      obtain ⟨k₀, v₀⟩ := p
      by_cases h0 : k₀ = k
      · subst h0
        simp [updKey, alookup, h']
      · simp [updKey, h0, alookup, ih]

theorem keys_updKey_of_mem {α : Type} (l : List (String × α)) (k : String) (v : α)
    (h : k ∈ l.map Prod.fst) : (updKey l k v).map Prod.fst = l.map Prod.fst := by
  induction l with
  | nil => simp at h
  | cons p t ih =>
      obtain ⟨k₀, v₀⟩ := p
      by_cases h0 : k₀ = k
      · simp [updKey, h0]
      · simp [updKey, h0]
        refine ih ?_
        rcases (by simpa using h : k = k₀ ∨ ∃ x, (k, x) ∈ t) with h1 | ⟨x, h1⟩
        · exact absurd h1.symm h0
        · exact List.mem_map.mpr ⟨(k, x), h1, rfl⟩

theorem alookup_append {α : Type} (a b : List (String × α)) (k : String) :
    alookup (a ++ b) k = ((alookup a k).orElse fun _ => alookup b k) := by
  induction a with
  | nil => simp [alookup]
  | cons p t ih =>
      obtain ⟨k₀, v₀⟩ := p
      by_cases h : k₀ = k
      · simp [alookup, h]
      · simp [alookup, h, ih]

theorem alookup_eq_none {α : Type} (l : List (String × α)) (k : String) :
    alookup l k = Option.none ↔ k ∉ l.map Prod.fst := by
  induction l with
  | nil => simp [alookup]
  | cons p t ih =>
      obtain ⟨k₀, v₀⟩ := p
      by_cases h : k₀ = k
      · subst h
        simp [alookup]
      · have h' : ¬ (k = k₀) := fun hh => h hh.symm
        simp [alookup, h, ih, h']

theorem mem_of_alookup {α : Type} {l : List (String × α)} {k : String} {v : α}
    (h : alookup l k = some v) : (k, v) ∈ l := by
  induction l with
  | nil => simp [alookup] at h
  | cons p t ih =>
      obtain ⟨k₀, v₀⟩ := p
      by_cases h0 : k₀ = k
      · subst h0
        simp [alookup] at h
        simp [h]
      · simp [alookup, h0] at h
        simp [ih h]

theorem alookup_of_mem_nodup {α : Type} {l : List (String × α)} {k : String} {v : α}
    (hnd : (l.map Prod.fst).Nodup) (h : (k, v) ∈ l) : alookup l k = some v := by
  induction l with
  | nil => simp at h
  | cons p t ih =>
      obtain ⟨k₀, v₀⟩ := p
      rcases List.mem_cons.mp h with h1 | h1
      · rw [Prod.mk.injEq] at h1
        obtain ⟨rfl, rfl⟩ := h1
        simp [alookup]
      · have hnd' : (∀ x, (k₀, x) ∉ t) ∧ (List.map Prod.fst t).Nodup := by
          simpa using hnd
        have hk : ¬ (k₀ = k) := by
          rintro rfl
          exact hnd'.1 v h1
        simp [alookup, hk]
        exact ih hnd'.2 h1

theorem alookup_split {α : Type} {l : List (String × α)} {k : String} {v : α}
    (h : alookup l k = some v) :
    ∃ pre post, l = pre ++ (k, v) :: post ∧ k ∉ pre.map Prod.fst := by
  induction l with
  | nil => simp [alookup] at h
  | cons p t ih =>
      obtain ⟨k₀, v₀⟩ := p
      by_cases h0 : k₀ = k
      · subst h0
        simp [alookup] at h
        exact ⟨[], t, by simp [h], by simp⟩
      · simp [alookup, h0] at h
        obtain ⟨pre, post, rfl, hnp⟩ := ih h
        refine ⟨(k₀, v₀) :: pre, post, by simp, ?_⟩
        simp [hnp]
        exact fun hh => h0 hh.symm

theorem alookup_map_snd {α β : Type} (l : List (String × α)) (g : String → α → β)
    (k : String) :
    alookup (l.map fun p => (p.1, g p.1 p.2)) k = (alookup l k).map (g k) := by
  induction l with
  | nil => simp [alookup]
  | cons p t ih =>
      obtain ⟨k₀, v₀⟩ := p
      by_cases h : k₀ = k
      · subst h
        simp [alookup]
      · simp [alookup, h, ih]

/-! ### C1 -/

/-- C1: the spec claims `to_storage` on a timestamp stores
`(microsecond // 1000) * 1000`; but under Python 3 `milli_trim`'s
`int((x.microsecond/1000)*1000)` is float arithmetic, which at
microsecond `123456` returns `123456` rather than the claimed
`123456 / 1000 * 1000 = 123000`: sub-millisecond precision is kept,
contradicting the code's own comment ("MongoDB will not store dates
with milliseconds") and the spec. -/
theorem C1_milli_trim_does_not_round_down :
    milli_trim ⟨0, 123456, true⟩ = ⟨0, 123456, true⟩ ∧
    123456 / 1000 * 1000 = 123000 ∧
    milli_trim ⟨0, 123456, true⟩ ≠ ⟨0, 123456 / 1000 * 1000, true⟩ :=
  ⟨by decide, by decide, by decide⟩

/-! ### C6 -/

/-- C6: declaring a persisted type whose registry name (the lower-cased
type name, which is the derived collection name) is already registered
raises a conflict naming that collection and leaves the type undeclared
and the registry unchanged; a fresh name is appended; hence registries
built by declarations never hold two entries for the same collection
name (they stay duplicate-free). -/
theorem C6_registration_conflict
    (reg : List String) (name : String) (ec : Option String)
    (bases : List Catalog) (own : List (String × FieldKind)) :
    (pyLower name ∈ reg →
      declareModel reg name ec bases own true = .error (pyLower name)) ∧
    (pyLower name ∉ reg →
      declareModel reg name ec bases own true =
        .ok ({ name := name, collection := ec.getD (pyLower name),
               fields := mkCatalog bases own }, reg ++ [pyLower name])) ∧
    (∀ b m reg', reg.Nodup → declareModel reg name ec bases own b = .ok (m, reg') →
      reg'.Nodup) := by
  refine ⟨?_, ?_, ?_⟩
  · intro h
    simp [declareModel, registerCollection, h]
  · intro h
    simp [declareModel, registerCollection, h]
  · intro b m reg' hnd h
    cases b with
    | false =>
        simp [declareModel] at h
        rw [← h.2]
        exact hnd
    | true =>
        by_cases hc : pyLower name ∈ reg
        · simp [declareModel, registerCollection, hc] at h
        · simp [declareModel, registerCollection, hc] at h
          rw [← h.2]
          rw [List.nodup_append]
          exact ⟨hnd, by simp, by simp [List.disjoint_singleton, hc]⟩

/-- Witness for C6 on concrete declarations: redeclaring a type for
collection `uniquemodel` fails naming that collection; a first
declaration succeeds and registers it. -/
theorem C6_registration_conflict_witness :
    declareModel ["uniquemodel"] "UniqueModel" Option.none [] [] true
      = .error "uniquemodel" ∧
    declareModel [] "UniqueModel" Option.none [] [] true
      = .ok ({ name := "UniqueModel", collection := "uniquemodel",
               fields := [] }, ["uniquemodel"]) := by
  constructor
  · have h := (C6_registration_conflict ["uniquemodel"] "UniqueModel" Option.none [] []).1
    simpa using h (by decide)
  · have h := (C6_registration_conflict [] "UniqueModel" Option.none [] []).2.1
    simpa [mkCatalog, dictUpd] using h (by decide)


/-! ### C8 -/

theorem C8_delete (now : DT) (store : List DocData) (dat : DocData) :
    ((idOf dat).truthy = false →
      deleteE now store dat = (store, .error .deleteWithoutIdentity)) ∧
    ((idOf dat).truthy = true →
      (∀ d, d ∈ (deleteE now store dat).1 ↔
        d ∈ store ∧ pyEqb (idOf d) (idOf dat) = false) ∧
      ∃ dat', (deleteE now store dat).2 = .ok dat' ∧
        alookup dat' "_id" = some .none) := by
  constructor
  · intro h
    simp [deleteE, h]
  · intro h
    have hset : setterE now idField "_id" dat .none = .ok (updKey dat "_id" .none) := by
      simp [setterE, validateE, idField, PyVal.truthy, toStorageE]
    refine ⟨?_, updKey dat "_id" .none, ?_, alookup_updKey_self _ _ _⟩
    · intro d
      simp [deleteE, h, hset, removeById, List.mem_filter]
    · simp [deleteE, h, hset]

theorem C8_delete_witness :
    ((idOf [("_id", PyVal.none)]).truthy = false ∧
      deleteE now0 [[("_id", PyVal.int 5)]] [("_id", PyVal.none)]
        = ([[("_id", PyVal.int 5)]], .error .deleteWithoutIdentity)) ∧
    ((idOf [("_id", PyVal.int 5)]).truthy = true ∧
      ([("_id", PyVal.int 5)] ∈ (deleteE now0 [[("_id", PyVal.int 5)]] [("_id", PyVal.int 5)]).1 ↔
        [("_id", PyVal.int 5)] ∈ [[("_id", PyVal.int 5)]] ∧
          pyEqb (idOf [("_id", PyVal.int 5)]) (idOf [("_id", PyVal.int 5)]) = false)) := by
  constructor
  · exact ⟨by simp [idOf, alookup, PyVal.truthy],
      (C8_delete now0 [[("_id", PyVal.int 5)]] [("_id", PyVal.none)]).1
        (by simp [idOf, alookup, PyVal.truthy])⟩
  · exact ⟨by simp [idOf, alookup, PyVal.truthy],
      ((C8_delete now0 [[("_id", PyVal.int 5)]] [("_id", PyVal.int 5)]).2
        (by simp [idOf, alookup, PyVal.truthy])).1 _⟩

/-! ### C10 -/

theorem initFields_ok_keys (now : DT) (data son : Option DocData) :
    ∀ (cat : Catalog) (d : DocData) (ex : List String),
      initFields now data son cat = .ok (d, ex) →
      d.map Prod.fst = cat.map Prod.fst := by
  intro cat
  induction cat with
  | nil =>
      intro d ex h
      simp [initFields] at h
      simp [h.1]
  | cons p t ih =>
      obtain ⟨fname, k⟩ := p
      intro d ex h
      simp only [initFields] at h
      cases hv : initVal now data son fname k with
      | error e => simp [hv] at h
      | ok val =>
          simp only [hv] at h
          cases hs : (if dTruthy son then
              Except.ok ((alookup (son.getD []) fname).getD .none)
            else toStorageE k val : Except PErr PyVal) with
          | error e => simp [hs] at h
          | ok stored =>
              simp only [hs] at h
              cases ht : initFields now data son t with
              | error e => simp [ht] at h
              | ok pr =>
                  obtain ⟨d', ex'⟩ := pr
                  simp [ht] at h
                  rw [← h.1]
                  simp [ih d' ex' ht]

/-- C10: `_data` keys invariant. -/
theorem C10_data_keys (now : DT) :
    (∀ (cat : Catalog) (data son : Option DocData) (d : DocData),
      docInitE now cat data son = .ok d →
      d.map Prod.fst = cat.map Prod.fst) ∧
    (∀ (k : FieldKind) (attr : String) (dat : DocData) (v : PyVal) (dat' : DocData),
      attr ∈ dat.map Prod.fst → setterE now k attr dat v = .ok dat' →
      dat'.map Prod.fst = dat.map Prod.fst) := by
  constructor
  · intro cat data son d h
    simp only [docInitE] at h
    cases hi : initFields now data son cat with
    | error e => simp [hi] at h
    | ok pr =>
        obtain ⟨d', ex⟩ := pr
        simp only [hi] at h
        cases hv : docValidateE now d' ex cat with
        | error e => simp [hv] at h
        | ok u =>
            simp [hv] at h
            rw [← h]
            exact initFields_ok_keys now data son cat d' ex hi
  · intro k attr dat v dat' hmem h
    simp only [setterE] at h
    cases hval : validateE now k v with
    | error e => cases e <;> simp [hval] at h
    | ok u =>
        simp only [hval] at h
        cases hs : toStorageE k v with
        | error e => simp [hs] at h
        | ok sv =>
            simp [hs] at h
            rw [← h]
            exact keys_updKey_of_mem dat attr sv hmem

theorem C10_data_keys_witness :
    (docInitE now0 [("_id", idField), ("f1", .field .none false)] Option.none Option.none
        = .ok [("_id", PyVal.none), ("f1", PyVal.none)] ∧
      [("_id", PyVal.none), ("f1", PyVal.none)].map Prod.fst
        = ([("_id", idField), ("f1", FieldKind.field .none false)] : Catalog).map Prod.fst) ∧
    ("f1" ∈ [("_id", PyVal.none), ("f1", PyVal.none)].map Prod.fst ∧
      setterE now0 (.field .none false) "f1" [("_id", PyVal.none), ("f1", PyVal.none)] (.int 3)
        = .ok [("_id", PyVal.none), ("f1", PyVal.int 3)] ∧
      [("_id", PyVal.none), ("f1", PyVal.int 3)].map Prod.fst
        = [("_id", PyVal.none), ("f1", PyVal.none)].map Prod.fst) := by
  have hinit : docInitE now0 [("_id", idField), ("f1", .field .none false)] Option.none Option.none
      = .ok [("_id", PyVal.none), ("f1", PyVal.none)] := by
    simp [docInitE, initFields, initVal, docValidateE, validateE, toPythonE, toStorageE,
      fieldDefault, dTruthy, alookup, idField, PyVal.truthy]
  have hset : setterE now0 (.field .none false) "f1"
      [("_id", PyVal.none), ("f1", PyVal.none)] (.int 3)
      = .ok [("_id", PyVal.none), ("f1", PyVal.int 3)] := by
    simp [setterE, validateE, toStorageE, PyVal.truthy, updKey]
  refine ⟨⟨hinit, (C10_data_keys now0).1 _ Option.none Option.none _ hinit⟩,
    ⟨by simp, hset, (C10_data_keys now0).2 _ "f1" _ (.int 3) _ (by simp) hset⟩⟩

/-! ### C7 -/

theorem manipStep_ne (now : DT) (coll : String) (m : String × Catalog) (v : SonVal)
    (h : m.1 ≠ coll) : manipStep now coll m v = .ok v := by
  have hb : (m.1 == coll) = false := by
    simp [h]
  cases v with
  | raw d => simp [manipStep, hb]
  | inst c d => simp [manipStep, hb]

theorem dispatchList_skip (now : DT) (coll : String) :
    ∀ (t : List (String × Catalog)) (v : SonVal),
      (∀ m ∈ t, m.1 ≠ coll) → dispatchList now coll t v = .ok v := by
  intro t
  induction t with
  | nil => intro v _; simp [dispatchList]
  | cons m t ih =>
      intro v h
      have h1 : m.1 ≠ coll := h m (by simp)
      simp [dispatchList, manipStep_ne now coll m v h1]
      exact ih v (fun m' hm' => h m' (by simp [hm']))

theorem dispatchList_append (now : DT) (coll : String) :
    ∀ (a b : List (String × Catalog)) (v : SonVal),
      dispatchList now coll (a ++ b) v =
        match dispatchList now coll a v with
        | .error e => .error e
        | .ok v' => dispatchList now coll b v' := by
  intro a
  induction a with
  | nil => intro b v; simp [dispatchList]
  | cons m t ih =>
      intro b v
      simp only [List.cons_append, dispatchList]
      cases hm : manipStep now coll m v with
      | error e => simp
      | ok v' => simp [ih]

/-- C7: dispatch reconstructs through the registered catalog, or passes
raw documents through untouched. -/
theorem C7_dispatch (now : DT) (reg : List (String × Catalog)) (coll : String)
    (son : DocData) :
    (∀ cat, (reg.map Prod.fst).Nodup → (coll, cat) ∈ reg → son ≠ [] →
      dispatchE now reg coll son =
        match docInitE now cat Option.none (some son) with
        | .error e => .error e
        | .ok d' => .ok (.inst coll d')) ∧
    (coll ∉ reg.map Prod.fst → dispatchE now reg coll son = .ok (.raw son)) := by
  constructor
  · intro cat hnd hmem hne
    obtain ⟨pre, post, rfl⟩ := List.append_of_mem hmem
    have hkeys : (pre.map Prod.fst ++ coll :: post.map Prod.fst).Nodup := by
      simpa using hnd
    have hpre : ∀ m ∈ pre, m.1 ≠ coll := by
      intro m hm heq
      have hin : coll ∈ pre.map Prod.fst := heq ▸ List.mem_map.mpr ⟨m, hm, rfl⟩
      exact (List.nodup_append.mp hkeys).2.2 hin (by simp)
    have hpost : ∀ m ∈ post, m.1 ≠ coll := by
      intro m hm heq
      have h2 := (List.nodup_append.mp hkeys).2.1
      rw [List.nodup_cons] at h2
      exact h2.1 (heq ▸ List.mem_map.mpr ⟨m, hm, rfl⟩)
    unfold dispatchE
    rw [dispatchList_append]
    rw [dispatchList_skip now coll pre _ hpre]
    simp only [dispatchList]
    have hmatch : manipStep now coll (coll, cat) (.raw son) =
        match docInitE now cat Option.none (some son) with
        | .error e => .error e
        | .ok d' => .ok (.inst coll d') := by
      have : (son.isEmpty : Bool) = false := by
        cases son with
        | nil => simp at hne
        | cons a b => simp [List.isEmpty]
      simp [manipStep, this]
    rw [hmatch]
    cases hd : docInitE now cat Option.none (some son) with
    | error e => simp
    | ok d' =>
        simp
        exact dispatchList_skip now coll post _ hpost
  · intro h
    unfold dispatchE
    exact dispatchList_skip now coll reg _ (by
      intro m hm heq
      exact h (heq ▸ List.mem_map.mpr ⟨m, hm, rfl⟩))

theorem C7_dispatch_witness :
    (([("t", [("f1", FieldKind.field .none true)])].map
        (Prod.fst (α := String) (β := Catalog))).Nodup ∧
      dispatchE now0 [("t", [("f1", .field .none true)])] "t" [("f1", .int 3)]
        = .ok (.inst "t" [("f1", PyVal.int 3)])) ∧
    ("u" ∉ [("t", ([("f1", FieldKind.field .none true)] : Catalog))].map Prod.fst ∧
      dispatchE now0 [("t", [("f1", .field .none true)])] "u" [("f1", .int 3)]
        = .ok (.raw [("f1", PyVal.int 3)])) := by
  constructor
  · refine ⟨by simp, ?_⟩
    have h := (C7_dispatch now0 [("t", [("f1", .field .none true)])] "t" [("f1", .int 3)]).1
      [("f1", .field .none true)] (by simp) (by simp) (by simp)
    rw [h]
    simp [docInitE, initFields, initVal, docValidateE, validateE, toPythonE, toStorageE,
      fieldDefault, dTruthy, alookup, PyVal.truthy]
  · refine ⟨by simp, ?_⟩
    exact (C7_dispatch now0 [("t", [("f1", .field .none true)])] "u" [("f1", .int 3)]).2
      (by simp)

/-! ### C9 -/

theorem mem_keys_updKey {α : Type} (d : List (String × α)) (k₀ k : String) (v : α) :
    k ∈ (updKey d k₀ v).map Prod.fst ↔ k ∈ d.map Prod.fst ∨ k = k₀ := by
  induction d with
  | nil => simp [updKey]
  | cons p t ih =>
      obtain ⟨k₁, v₁⟩ := p
      by_cases h : k₁ = k₀
      · subst h
        simp [updKey]
        tauto
      · simp [updKey, h, ih]
        tauto

theorem dictUpd_lookup {α : Type} :
    ∀ (e d : List (String × α)) (k : String),
      alookup (dictUpd d e) k =
        match lastLookup e k with
        | some v => some v
        | Option.none => alookup d k := by
  intro e
  induction e with
  | nil => intro d k; simp [dictUpd, lastLookup, alookup]
  | cons p e ih =>
      obtain ⟨k₀, v₀⟩ := p
      intro d k
      have hstep : dictUpd d ((k₀, v₀) :: e) = dictUpd (updKey d k₀ v₀) e := by
        simp [dictUpd]
      rw [hstep, ih]
      have hll : lastLookup ((k₀, v₀) :: e) k =
          ((alookup e.reverse k).orElse fun _ => alookup [(k₀, v₀)] k) := by
        simp only [lastLookup, List.reverse_cons]
        exact alookup_append _ _ _
      rw [hll]
      cases hE : alookup e.reverse k with
      | none =>
          have hE' : lastLookup e k = Option.none := hE
          rw [hE']
          by_cases hk : k₀ = k
          · subst hk
            simp [Option.orElse, alookup, alookup_updKey_self]
          · simp [Option.orElse, alookup, hk,
              alookup_updKey_ne d k₀ k v₀ (fun hh => hk hh.symm)]
      | some v =>
          have hE' : lastLookup e k = some v := hE
          rw [hE']
          simp [Option.orElse]

theorem lastLookup_of_nodup {α : Type} :
    ∀ (l : List (String × α)), (l.map Prod.fst).Nodup →
      ∀ k, lastLookup l k = alookup l k := by
  intro l
  induction l with
  | nil => intro _ k; rfl
  | cons p t ih =>
      obtain ⟨k₀, v₀⟩ := p
      intro hnd k
      rw [List.map_cons, List.nodup_cons] at hnd
      have hk₀ : k₀ ∉ t.map Prod.fst := hnd.1
      have hnd' : (t.map Prod.fst).Nodup := hnd.2
      have h2 : alookup t.reverse k = alookup t k := ih hnd' k
      show alookup ((k₀, v₀) :: t).reverse k = _
      rw [List.reverse_cons, alookup_append, h2]
      by_cases hk : k₀ = k
      · subst hk
        have hnone : alookup t k₀ = Option.none := by
          rw [alookup_eq_none]; exact hk₀
        simp [hnone, Option.orElse, alookup]
      · simp only [alookup, hk, if_neg hk]
        cases alookup t k <;> simp [Option.orElse, alookup, hk]

theorem keys_dictUpd {α : Type} :
    ∀ (e d : List (String × α)) (k : String),
      k ∈ (dictUpd d e).map Prod.fst ↔ k ∈ d.map Prod.fst ∨ k ∈ e.map Prod.fst := by
  intro e
  induction e with
  | nil => intro d k; simp [dictUpd]
  | cons p e ih =>
      obtain ⟨k₀, v₀⟩ := p
      intro d k
      have hstep : dictUpd d ((k₀, v₀) :: e) = dictUpd (updKey d k₀ v₀) e := by
        simp [dictUpd]
      rw [hstep, ih, mem_keys_updKey]
      simp
      tauto

theorem foldl_dictUpd_mem {α : Type} :
    ∀ (bs : List (List (String × α))) (acc : List (String × α)) (k : String),
      k ∈ (bs.foldl dictUpd acc).map Prod.fst ↔
        k ∈ acc.map Prod.fst ∨ ∃ b ∈ bs, k ∈ b.map Prod.fst := by
  intro bs
  induction bs with
  | nil => intro acc k; simp
  | cons b bs ih =>
      intro acc k
      simp only [List.foldl_cons]
      rw [ih, keys_dictUpd]
      simp
      tauto

theorem foldl_dictUpd_lookup {α : Type} :
    ∀ (bs : List (List (String × α))) (acc : List (String × α)) (k : String),
      (∀ b ∈ bs, (b.map Prod.fst).Nodup) →
      (∃ b ∈ bs, k ∈ b.map Prod.fst ∧
        alookup (bs.foldl dictUpd acc) k = alookup b k) ∨
      ((∀ b ∈ bs, k ∉ b.map Prod.fst) ∧
        alookup (bs.foldl dictUpd acc) k = alookup acc k) := by
  intro bs
  induction bs with
  | nil => intro acc k _; right; simp
  | cons b bs ih =>
      intro acc k hnd
      simp only [List.foldl_cons]
      rcases ih (dictUpd acc b) k (fun b' hb' => hnd b' (by simp [hb'])) with
        ⟨b', hb', hk', hl⟩ | ⟨hall, hl⟩
      · exact Or.inl ⟨b', by simp [hb'], hk', hl⟩
      · rw [dictUpd_lookup] at hl
        by_cases hk : k ∈ b.map Prod.fst
        · left
          refine ⟨b, by simp, hk, ?_⟩
          rw [hl, lastLookup_of_nodup b (hnd b (by simp)) k]
          cases hv : alookup b k with
          | none => exact absurd hk ((alookup_eq_none b k).mp hv)
          | some v => simp
        · right
          refine ⟨?_, ?_⟩
          · intro b' hb'
            rcases List.mem_cons.mp hb' with rfl | hb'
            · exact hk
            · exact hall b' hb'
          · rw [hl, lastLookup_of_nodup b (hnd b (by simp)) k,
              (alookup_eq_none b k).mpr hk]

/-- C9: a declared type's catalog is the union of its ancestors'
catalogs plus its own declared fields, the type's own definitions
winning on name collision (the catalog is assembled once, inside
`ModelType.__new__`, at declaration time). -/
theorem C9_field_catalog (bases : List Catalog) (own : List (String × FieldKind))
    (k : String) (hnb : ∀ b ∈ bases, (b.map Prod.fst).Nodup)
    (hno : (own.map Prod.fst).Nodup) :
    (k ∈ (mkCatalog bases own).map Prod.fst ↔
      (∃ b ∈ bases, k ∈ b.map Prod.fst) ∨ k ∈ own.map Prod.fst) ∧
    (∀ f, alookup own k = some f → alookup (mkCatalog bases own) k = some f) ∧
    (k ∉ own.map Prod.fst →
      (∃ b ∈ bases, k ∈ b.map Prod.fst ∧
        alookup (mkCatalog bases own) k = alookup b k) ∨
      ((∀ b ∈ bases, k ∉ b.map Prod.fst) ∧
        alookup (mkCatalog bases own) k = Option.none)) := by
  refine ⟨?_, ?_, ?_⟩
  · unfold mkCatalog
    rw [keys_dictUpd, foldl_dictUpd_mem]
    simp
  · intro f hf
    unfold mkCatalog
    rw [dictUpd_lookup, lastLookup_of_nodup own hno k, hf]
  · intro hk
    unfold mkCatalog
    rw [dictUpd_lookup, lastLookup_of_nodup own hno k,
      (alookup_eq_none own k).mpr hk]
    rcases foldl_dictUpd_lookup bases [] k hnb with ⟨b, hb, hkb, hl⟩ | ⟨hall, hl⟩
    · exact Or.inl ⟨b, hb, hkb, hl⟩
    · right
      exact ⟨hall, by rw [hl]; rfl⟩

theorem C9_field_catalog_witness :
    ((∀ b ∈ [[("_id", idField), ("fa", FieldKind.field (.str "b") false)]],
        (b.map (Prod.fst (α := String) (β := FieldKind))).Nodup) ∧
      ([("fa", FieldKind.field (.int 1) true)].map
        (Prod.fst (α := String) (β := FieldKind))).Nodup) ∧
    alookup (mkCatalog [[("_id", idField), ("fa", .field (.str "b") false)]]
        [("fa", .field (.int 1) true)]) "fa" = some (.field (.int 1) true) ∧
    ("_id" ∈ (mkCatalog [[("_id", idField), ("fa", .field (.str "b") false)]]
        [("fa", .field (.int 1) true)]).map Prod.fst ↔
      (∃ b ∈ [[("_id", idField), ("fa", FieldKind.field (.str "b") false)]],
        "_id" ∈ b.map Prod.fst) ∨
        "_id" ∈ [("fa", FieldKind.field (.int 1) true)].map Prod.fst) := by
  have h := C9_field_catalog [[("_id", idField), ("fa", .field (.str "b") false)]]
    [("fa", .field (.int 1) true)] "fa" (by simp) (by simp)
  have h2 := C9_field_catalog [[("_id", idField), ("fa", .field (.str "b") false)]]
    [("fa", .field (.int 1) true)] "_id" (by simp) (by simp)
  exact ⟨⟨by simp, by simp⟩, h.2.1 _ (by simp [alookup]), h2.1⟩

/-! ### Construction characterization (for C3, C4, C5) -/

theorem initVal_sonFalsy (now : DT) (data son : Option DocData) (fname : String)
    (k : FieldKind) (hson : dTruthy son = false) :
    initVal now data son fname k = .ok (seedOrDefault now data fname k) := by
  unfold initVal seedOrDefault
  rw [hson]
  by_cases hd : dTruthy data = true ∧ (alookup (data.getD []) fname).isSome = true
  · simp [hd]
  · simp [hd]

theorem initFields_sonFalsy_eq (now : DT) (data son : Option DocData)
    (hson : dTruthy son = false) :
    ∀ (cat : Catalog),
      (∀ p ∈ cat, ∃ s, storedOf now data p.1 p.2 = .ok s) →
      initFields now data son cat = .ok
        (cat.map fun p => (p.1, okVal (storedOf now data p.1 p.2)),
         (cat.filter fun p => !(seedOrDefault now data p.1 p.2).truthy).map Prod.fst) := by
  intro cat
  induction cat with
  | nil => intro _; simp [initFields]
  | cons p t ih =>
      obtain ⟨fname, k⟩ := p
      intro hok
      obtain ⟨s, hs⟩ := hok (fname, k) (by simp)
      simp only [initFields, initVal_sonFalsy now data son fname k hson]
      rw [hson]
      simp only [Bool.false_eq_true, if_false]
      have hs' : toStorageE k (seedOrDefault now data fname k) = .ok s := hs
      rw [hs']
      rw [ih (fun p hp => hok p (by simp [hp]))]
      have hov : okVal (storedOf now data fname k) = s := by
        rw [show storedOf now data fname k = Except.ok s from hs]
        rfl
      simp only [List.filter_cons]
      by_cases ht : (seedOrDefault now data fname k).truthy
      · simp [ht, hov]
      · simp [ht, hov]

theorem initFields_sonTruthy_inv (now : DT) (data : Option DocData) (son : DocData)
    (hne : son.isEmpty = false) :
    ∀ (cat : Catalog) (d : DocData) (ex : List String),
      initFields now data (some son) cat = .ok (d, ex) →
      d = cat.map (fun p => (p.1, (alookup son p.1).getD .none)) ∧ ex = [] := by
  have hson : dTruthy (some son) = true := by simp [dTruthy, hne]
  intro cat
  induction cat with
  | nil =>
      intro d ex h
      simp [initFields] at h
      exact ⟨by simp [h.1], by simp [h.2]⟩
  | cons p t ih =>
      obtain ⟨fname, k⟩ := p
      intro d ex h
      simp only [initFields] at h
      cases hv : initVal now data (some son) fname k with
      | error e => simp [hv] at h
      | ok val =>
          simp only [hv, hson] at h
          simp only [Bool.not_true, Bool.false_and, Bool.false_eq_true, if_false,
            List.nil_append] at h
          cases ht : initFields now data (some son) t with
          | error e => simp [ht] at h
          | ok pr =>
              obtain ⟨d', ex'⟩ := pr
              simp only [ht] at h
              obtain ⟨hd', hex'⟩ := ih d' ex' ht
              simp at h
              exact ⟨by rw [← h.1, hd']; simp, by rw [← h.2, hex']⟩

theorem initFields_sonTruthy_eq (now : DT) (data : Option DocData) (son : DocData)
    (hne : son.isEmpty = false) :
    ∀ (cat : Catalog),
      (∀ p ∈ cat, ∀ raw, alookup son p.1 = some raw →
        ∃ pv, toPythonE now p.2 raw = .ok pv) →
      initFields now data (some son) cat =
        .ok (cat.map (fun p => (p.1, (alookup son p.1).getD .none)), []) := by
  have hson : dTruthy (some son) = true := by simp [dTruthy, hne]
  intro cat
  induction cat with
  | nil => intro _; simp [initFields]
  | cons p t ih =>
      obtain ⟨fname, k⟩ := p
      intro hok
      have hval : ∃ val, initVal now data (some son) fname k = .ok val := by
        unfold initVal
        rw [hson]
        cases hlk : (alookup son fname) with
        | none => simp [hlk]; split <;> simp
        | some raw =>
            obtain ⟨pv, hpv⟩ := hok (fname, k) (by simp) raw hlk
            simp only [Option.getD_some, Bool.true_and, hlk, Option.isSome_some,
              if_true]
            exact ⟨pv, by simp [Option.getD, hpv]⟩
      obtain ⟨val, hv⟩ := hval
      simp only [initFields, hv, hson]
      simp only [Bool.not_true, Bool.false_and, Bool.false_eq_true, if_false,
        List.nil_append, if_true]
      rw [ih (fun p hp => hok p (by simp [hp]))]
      simp

theorem contains_iff_mem_str (ex : List String) (f : String) :
    ex.contains f = true ↔ f ∈ ex := by simp

theorem docValidateE_ok_forall (now : DT) (d : DocData) (ex : List String) :
    ∀ (cat : Catalog), docValidateE now d ex cat = .ok () →
      ∀ p ∈ cat, p.1 ∉ ex →
        ∃ raw pv, alookup d p.1 = some raw ∧ toPythonE now p.2 raw = .ok pv ∧
          validateE now p.2 pv = .ok () := by
  intro cat
  induction cat with
  | nil => intro _ p hp; simp at hp
  | cons q t ih =>
      obtain ⟨fname, k⟩ := q
      intro h p hp hpex
      by_cases hc : ex.contains fname
      · simp only [docValidateE, hc, if_true] at h
        rcases List.mem_cons.mp hp with heq | hp'
        · rw [heq] at hpex
          exact absurd ((contains_iff_mem_str ex fname).mp hc) hpex
        · exact ih h p hp' hpex
      · simp only [docValidateE, hc, Bool.false_eq_true, if_false] at h
        cases hlk : alookup d fname with
        | none => simp only [hlk] at h; simp at h
        | some raw =>
            simp only [hlk] at h
            cases hpy : toPythonE now k raw with
            | error e => simp only [hpy] at h; cases e <;> simp at h
            | ok pv =>
                simp only [hpy] at h
                cases hval : validateE now k pv with
                | error e => simp only [hval] at h; cases e <;> simp at h
                | ok u =>
                    simp only [hval] at h
                    rcases List.mem_cons.mp hp with heq | hp'
                    · rw [heq]
                      exact ⟨raw, pv, hlk, hpy, hval⟩
                    · exact ih h p hp' hpex

theorem docValidateE_ok_of (now : DT) (d : DocData) (ex : List String) :
    ∀ (cat : Catalog),
      (∀ p ∈ cat, p.1 ∈ ex ∨
        ∃ raw pv, alookup d p.1 = some raw ∧ toPythonE now p.2 raw = .ok pv ∧
          validateE now p.2 pv = .ok ()) →
      docValidateE now d ex cat = .ok () := by
  intro cat
  induction cat with
  | nil => intro _; simp [docValidateE]
  | cons q t ih =>
      obtain ⟨fname, k⟩ := q
      intro h
      by_cases hc : ex.contains fname
      · simp only [docValidateE, hc, if_true]
        exact ih (fun p hp => h p (by simp [hp]))
      · rcases h (fname, k) (by simp) with hmem | ⟨raw, pv, hlk, hpy, hval⟩
        · exact absurd ((contains_iff_mem_str ex fname).mpr hmem) hc
        · simp only [docValidateE, hc, Bool.false_eq_true, if_false]
          simp only [hlk, hpy, hval]
          exact ih (fun p hp => h p (by simp [hp]))

theorem docValidateE_first_failure (now : DT) (d : DocData) (ex : List String)
    (fname : String) (k : FieldKind) (raw : PyVal) :
    ∀ (pre post : Catalog),
      (∀ p ∈ pre, p.1 ∈ ex ∨
        ∃ raw' pv, alookup d p.1 = some raw' ∧ toPythonE now p.2 raw' = .ok pv ∧
          validateE now p.2 pv = .ok ()) →
      fname ∉ ex →
      alookup d fname = some raw →
      (toPythonE now k raw = .error .assertion ∨
        (∃ pv, toPythonE now k raw = .ok pv ∧ validateE now k pv = .error .assertion)) →
      docValidateE now d ex (pre ++ (fname, k) :: post) =
        .error (.validation fname raw) := by
  intro pre
  induction pre with
  | nil =>
      intro post _ hex hlk hfail
      have hc : ex.contains fname = false := by
        rw [Bool.eq_false_iff]
        intro hcc
        exact hex ((contains_iff_mem_str ex fname).mp hcc)
      simp only [List.nil_append, docValidateE, hc, Bool.false_eq_true, if_false]
      simp only [hlk]
      rcases hfail with hpy | ⟨pv, hpy, hval⟩
      · simp only [hpy]
      · simp only [hpy, hval]
  | cons q pre ih =>
      obtain ⟨f₀, k₀⟩ := q
      intro post hpre hex hlk hfail
      rcases hpre (f₀, k₀) (by simp) with hmem | ⟨raw', pv, hlk', hpy', hval'⟩
      · have hc : ex.contains f₀ = true := (contains_iff_mem_str ex f₀).mpr hmem
        simp only [List.cons_append, docValidateE, hc, if_true]
        exact ih post (fun p hp => hpre p (by simp [hp])) hex hlk hfail
      · by_cases hc : ex.contains f₀
        · simp only [List.cons_append, docValidateE, hc, if_true]
          exact ih post (fun p hp => hpre p (by simp [hp])) hex hlk hfail
        · simp only [List.cons_append, docValidateE, hc, Bool.false_eq_true, if_false]
          simp only [hlk', hpy', hval']
          exact ih post (fun p hp => hpre p (by simp [hp])) hex hlk hfail

theorem initFields_ex_sub (now : DT) (data son : Option DocData) :
    ∀ (cat : Catalog) (d : DocData) (ex : List String),
      initFields now data son cat = .ok (d, ex) → ex ⊆ cat.map Prod.fst := by
  intro cat
  induction cat with
  | nil =>
      intro d ex h
      simp [initFields] at h
      simp [← h.2]
  | cons p t ih =>
      obtain ⟨fname, k⟩ := p
      intro d ex h
      simp only [initFields] at h
      cases hv : initVal now data son fname k with
      | error e => simp [hv] at h
      | ok val =>
          simp only [hv] at h
          cases hs : (if dTruthy son then
              Except.ok ((alookup (son.getD []) fname).getD .none)
            else toStorageE k val : Except PErr PyVal) with
          | error e => simp [hs] at h
          | ok stored =>
              simp only [hs] at h
              cases ht : initFields now data son t with
              | error e => simp [ht] at h
              | ok pr =>
                  obtain ⟨d', ex'⟩ := pr
                  simp [ht] at h
                  rw [← h.2]
                  intro x hx
                  rcases List.mem_append.mp hx with hx | hx
                  · by_cases hcond : dTruthy son = false ∧ val.truthy = false
                    · simp [hcond] at hx
                      simp [hx]
                    · simp [hcond] at hx
                  · simp only [List.map_cons, List.mem_cons]
                    exact Or.inr (ih d' ex' ht hx)

theorem mem_keys_filter_nodup {α : Type} (cat : List (String × α))
    (P : String × α → Bool) (hnd : (cat.map Prod.fst).Nodup)
    (fname : String) (k : α) (hlk : alookup cat fname = some k) :
    fname ∈ (cat.filter P).map Prod.fst ↔ P (fname, k) = true := by
  constructor
  · intro h
    obtain ⟨p, hp, hp1⟩ := List.mem_map.mp h
    have hmem := (List.mem_filter.mp hp).1
    have hP := (List.mem_filter.mp hp).2
    have : alookup cat p.1 = some p.2 := alookup_of_mem_nodup hnd (by
      cases p; exact hmem)
    rw [hp1, hlk] at this
    have hk : p.2 = k := by
      injection this with hh
      exact hh.symm
    cases p
    simp at hp1 hk
    rw [hp1, hk] at hP
    exact hP
  · intro h
    have hmem : (fname, k) ∈ cat := mem_of_alookup hlk
    exact List.mem_map.mpr ⟨(fname, k), List.mem_filter.mpr ⟨hmem, h⟩, rfl⟩

theorem initFields_exempt_iff (now : DT) (data son : Option DocData)
    (hson : dTruthy son = false) :
    ∀ (cat : Catalog) (d : DocData) (ex : List String) (fname : String)
      (k : FieldKind), (cat.map Prod.fst).Nodup →
      initFields now data son cat = .ok (d, ex) →
      alookup cat fname = some k →
      (fname ∈ ex ↔ (seedOrDefault now data fname k).truthy = false) := by
  intro cat
  induction cat with
  | nil =>
      intro d ex fname k _ _ hlk
      simp [alookup] at hlk
  | cons p t ih =>
      obtain ⟨f₀, k₀⟩ := p
      intro d ex fname k hnd hinit hlk
      rw [List.map_cons, List.nodup_cons] at hnd
      simp only [initFields, initVal_sonFalsy now data son f₀ k₀ hson] at hinit
      cases hs : (if dTruthy son then
          Except.ok ((alookup (son.getD []) f₀).getD .none)
        else toStorageE k₀ (seedOrDefault now data f₀ k₀) : Except PErr PyVal) with
      | error e => simp [hs] at hinit
      | ok stored =>
          simp only [hs] at hinit
          cases ht : initFields now data son t with
          | error e => simp [ht] at hinit
          | ok pr =>
              obtain ⟨d', ex'⟩ := pr
              simp [ht] at hinit
              rw [← hinit.2]
              by_cases hf : f₀ = fname
              · subst hf
                have hk : k = k₀ := by
                  simp [alookup] at hlk
                  exact hlk.symm
                subst hk
                have hnotex' : f₀ ∉ ex' := fun hmem =>
                  hnd.1 (initFields_ex_sub now data son t d' ex' ht hmem)
                rw [hson]
                by_cases htr : (seedOrDefault now data f₀ k).truthy = false
                · simp [htr, hnotex']
                · simp only [Bool.not_eq_false] at htr
                  simp [htr, hnotex']
              · have hlk' : alookup t fname = some k := by
                  simpa [alookup, hf] using hlk
                have := ih d' ex' fname k hnd.2 ht hlk'
                rw [← this]
                constructor
                · intro hmem
                  rcases List.mem_append.mp hmem with hmem | hmem
                  · by_cases hcond : dTruthy son = false ∧
                        (seedOrDefault now data f₀ k₀).truthy = false
                    · simp [hcond] at hmem
                      exact absurd hmem.symm hf
                    · simp [hcond] at hmem
                  · exact hmem
                · intro hmem
                  exact List.mem_append.mpr (Or.inr hmem)

/-- C4 (as stated) is false: constructing with a seed value that
explicitly supplies the empty value `None` for the non-blank field
`nbl` succeeds (the field is exempted because its value is falsy and no
raw document was given), where the claim requires an immediate
`ValidationFailure`. -/
theorem C4_counterexample :
    kindBlank (.field .none false) = false ∧
    PyVal.truthy .none = false ∧
    docInitE now0 [("nbl", .field .none false)]
        (some [("nbl", PyVal.none)]) Option.none
      = .ok [("nbl", PyVal.none)] := by
  refine ⟨rfl, rfl, ?_⟩
  simp [docInitE, initFields, initVal, docValidateE, toStorageE, dTruthy, alookup,
    PyVal.truthy, fieldDefault]

/-- C4 (amended): with no (truthy) raw document, a field is exempt from
the construction-time validation pass exactly when its resolved value —
whether it came from the seed values or from the default — is
falsy/empty; in particular an explicitly supplied empty value does not
raise.  An explicitly supplied *truthy* invalid value still raises a
`ValidationFailure` naming the field at construction. -/
theorem C4_exemption_rule (now : DT) (data son : Option DocData) (cat : Catalog)
    (hson : dTruthy son = false) (hnd : (cat.map Prod.fst).Nodup) :
    (∀ d ex fname k, initFields now data son cat = .ok (d, ex) →
      alookup cat fname = some k →
      (fname ∈ ex ↔ (seedOrDefault now data fname k).truthy = false)) ∧
    (∀ fname k v sv,
      alookup cat fname = some k →
      dTruthy data = true → alookup (data.getD []) fname = some v →
      v.truthy = true →
      toStorageE k v = .ok sv →
      (toPythonE now k sv = .error .assertion ∨
        (∃ pv, toPythonE now k sv = .ok pv ∧ validateE now k pv = .error .assertion)) →
      (∀ p ∈ cat, ∃ s, storedOf now data p.1 p.2 = .ok s) →
      (∀ p ∈ cat, p.1 ≠ fname →
        (seedOrDefault now data p.1 p.2).truthy = false ∨
        (∃ pv, toPythonE now p.2 (okVal (storedOf now data p.1 p.2)) = .ok pv ∧
          validateE now p.2 pv = .ok ())) →
      docInitE now cat data son = .error (.validation fname sv)) := by
  constructor
  · intro d ex fname k hinit hlk
    exact initFields_exempt_iff now data son hson cat d ex fname k hnd hinit hlk
  · intro fname k v sv hlk hdata hv hvt hsv hfail hall hothers
    have hsd : seedOrDefault now data fname k = v := by
      unfold seedOrDefault
      simp [hdata, hv]
    have hst : storedOf now data fname k = .ok sv := by
      unfold storedOf
      rw [hsd]
      exact hsv
    have hov : okVal (storedOf now data fname k) = sv := by
      rw [show storedOf now data fname k = Except.ok sv from hst]
      rfl
    have hinit := initFields_sonFalsy_eq now data son hson cat hall
    obtain ⟨pre, post, hcat, hnp⟩ := alookup_split hlk
    subst hcat
    have hlkm : alookup ((pre ++ (fname, k) :: post).map
        fun p => (p.1, okVal (storedOf now data p.1 p.2))) fname = some sv := by
      rw [alookup_map_snd _ (fun f kk => okVal (storedOf now data f kk)) fname, hlk]
      simp [hov]
    have hnotex : fname ∉ ((pre ++ (fname, k) :: post).filter
        fun p => !(seedOrDefault now data p.1 p.2).truthy).map Prod.fst := by
      intro hmem
      have := (mem_keys_filter_nodup _ _ hnd fname k hlk).mp hmem
      rw [hsd] at this
      simp [hvt] at this
    have hpre : ∀ p ∈ pre, p.1 ∈ ((pre ++ (fname, k) :: post).filter
          fun p => !(seedOrDefault now data p.1 p.2).truthy).map Prod.fst ∨
        ∃ raw' pv, alookup ((pre ++ (fname, k) :: post).map
            fun p => (p.1, okVal (storedOf now data p.1 p.2))) p.1 = some raw' ∧
          toPythonE now p.2 raw' = .ok pv ∧ validateE now p.2 pv = .ok () := by
      intro p hp
      have hpcat : p ∈ pre ++ (fname, k) :: post := List.mem_append.mpr (Or.inl hp)
      have hpne : p.1 ≠ fname := by
        intro hh
        exact hnp (hh ▸ List.mem_map.mpr ⟨p, hp, rfl⟩)
      have hplk : alookup (pre ++ (fname, k) :: post) p.1 = some p.2 :=
        alookup_of_mem_nodup hnd (by cases p; exact hpcat)
      rcases hothers p hpcat hpne with hfalsy | ⟨pv, hpy, hval⟩
      · left
        exact (mem_keys_filter_nodup _ _ hnd p.1 p.2 hplk).mpr (by simp [hfalsy])
      · right
        refine ⟨okVal (storedOf now data p.1 p.2), pv, ?_, hpy, hval⟩
        rw [alookup_map_snd _ (fun f kk => okVal (storedOf now data f kk)) p.1, hplk]
        rfl
    have hfirst := docValidateE_first_failure now
      ((pre ++ (fname, k) :: post).map fun p => (p.1, okVal (storedOf now data p.1 p.2)))
      (((pre ++ (fname, k) :: post).filter
        fun p => !(seedOrDefault now data p.1 p.2).truthy).map Prod.fst)
      fname k sv pre post hpre hnotex hlkm hfail
    simp only [docInitE, hinit, hfirst]

theorem C4_exemption_rule_witness :
    ("nbl" ∈ ["nbl"] ↔ (seedOrDefault now0 (some [("nbl", PyVal.none)]) "nbl"
      (.field .none false)).truthy = false) ∧
    docInitE now0 [("dic", .dictField (.pydict []) false)]
        (some [("dic", PyVal.str "x")]) Option.none
      = .error (.validation "dic" (.str "x")) := by
  constructor
  · refine (C4_exemption_rule now0 (some [("nbl", PyVal.none)]) Option.none
      [("nbl", .field .none false)] (by simp [dTruthy]) (by simp)).1
      [("nbl", PyVal.none)] ["nbl"] "nbl" (.field .none false) ?_ (by simp [alookup])
    simp [initFields, initVal, toStorageE, dTruthy, alookup, fieldDefault, PyVal.truthy]
  · refine (C4_exemption_rule now0 (some [("dic", PyVal.str "x")]) Option.none
      [("dic", .dictField (.pydict []) false)] (by simp [dTruthy]) (by simp)).2
      "dic" (.dictField (.pydict []) false) (.str "x") (.str "x")
      (by simp [alookup]) (by simp [dTruthy]) (by simp [alookup])
      (by decide) (by simp [toStorageE])
      (Or.inr ⟨.str "x", by simp [toPythonE], by simp [validateE]⟩) ?_ ?_
    · intro p hp
      simp at hp
      refine ⟨.str "x", ?_⟩
      rw [hp]
      simp [storedOf, seedOrDefault, toStorageE, dTruthy, alookup]
    · intro p hp hne
      simp at hp
      rw [hp] at hne
      simp at hne

/-! ### C5 -/

/-- C5: constructing from a truthy raw document stores each catalog
field's original raw value unchanged (`to_storage` is not re-applied and
defaults are ignored), the construction-time validation pass excludes
nothing (every field is validated, in the one `validate` call of
`__init__`), and a raw value whose `to_python` round-trip fails
validation raises a `ValidationFailure` naming the field and that raw
value. -/
theorem C5_raw_document_construction (now : DT) (cat : Catalog) (son : DocData)
    (hne : son.isEmpty = false) :
    (∀ d ex, initFields now Option.none (some son) cat = .ok (d, ex) →
      d = cat.map (fun p => (p.1, (alookup son p.1).getD .none)) ∧ ex = []) ∧
    (∀ d, docInitE now cat Option.none (some son) = .ok d →
      d = cat.map (fun p => (p.1, (alookup son p.1).getD .none))) ∧
    (∀ fname k pv, (cat.map Prod.fst).Nodup →
      alookup cat fname = some k →
      toPythonE now k ((alookup son fname).getD .none) = .ok pv →
      validateE now k pv = .error .assertion →
      (∀ p ∈ cat, p.1 ≠ fname →
        ∃ pv', toPythonE now p.2 ((alookup son p.1).getD .none) = .ok pv' ∧
          validateE now p.2 pv' = .ok ()) →
      docInitE now cat Option.none (some son) =
        .error (.validation fname ((alookup son fname).getD .none))) := by
  refine ⟨initFields_sonTruthy_inv now Option.none son hne cat, ?_, ?_⟩
  · intro d h
    simp only [docInitE] at h
    cases hi : initFields now Option.none (some son) cat with
    | error e => simp [hi] at h
    | ok pr =>
        obtain ⟨d', ex⟩ := pr
        simp only [hi] at h
        cases hv : docValidateE now d' ex cat with
        | error e => simp [hv] at h
        | ok u =>
            simp [hv] at h
            rw [← h]
            exact (initFields_sonTruthy_inv now Option.none son hne cat d' ex hi).1
  · intro fname k pv hnd hlk hpy hval hothers
    have hto : ∀ p ∈ cat, ∀ raw, alookup son p.1 = some raw →
        ∃ pv', toPythonE now p.2 raw = .ok pv' := by
      rintro ⟨pn, pk⟩ hp raw hraw
      simp only at hraw ⊢
      by_cases hpf : pn = fname
      · subst hpf
        have hk : pk = k := by
          have h2 : alookup cat pn = some pk := alookup_of_mem_nodup hnd hp
          rw [hlk] at h2
          injection h2 with hh
          exact hh.symm
        subst hk
        rw [hraw] at hpy
        exact ⟨pv, by simpa using hpy⟩
      · obtain ⟨pv', hpy', _⟩ := hothers (pn, pk) hp hpf
        simp only at hpy'
        rw [hraw] at hpy'
        exact ⟨pv', by simpa using hpy'⟩
    have hinit := initFields_sonTruthy_eq now Option.none son hne cat hto
    obtain ⟨pre, post, hcat, hnp⟩ := alookup_split hlk
    subst hcat
    have hlkm : alookup ((pre ++ (fname, k) :: post).map
        fun p => (p.1, (alookup son p.1).getD .none)) fname
        = some ((alookup son fname).getD .none) := by
      rw [alookup_map_snd _ (fun f _kk => (alookup son f).getD .none) fname, hlk]
      rfl
    have hpre : ∀ p ∈ pre, p.1 ∈ ([] : List String) ∨
        ∃ raw' pv', alookup ((pre ++ (fname, k) :: post).map
            fun p => (p.1, (alookup son p.1).getD .none)) p.1 = some raw' ∧
          toPythonE now p.2 raw' = .ok pv' ∧ validateE now p.2 pv' = .ok () := by
      intro p hp
      right
      have hpcat : p ∈ pre ++ (fname, k) :: post := List.mem_append.mpr (Or.inl hp)
      have hpne : p.1 ≠ fname := by
        intro hh
        exact hnp (hh ▸ List.mem_map.mpr ⟨p, hp, rfl⟩)
      have hplk : alookup (pre ++ (fname, k) :: post) p.1 = some p.2 :=
        alookup_of_mem_nodup hnd (by cases p; exact hpcat)
      obtain ⟨pv', hpy', hval'⟩ := hothers p hpcat hpne
      refine ⟨(alookup son p.1).getD .none, pv', ?_, hpy', hval'⟩
      rw [alookup_map_snd _ (fun f _kk => (alookup son f).getD .none) p.1, hplk]
      rfl
    have hfirst := docValidateE_first_failure now
      ((pre ++ (fname, k) :: post).map fun p => (p.1, (alookup son p.1).getD .none))
      [] fname k ((alookup son fname).getD .none) pre post hpre (by simp) hlkm
      (Or.inr ⟨pv, hpy, hval⟩)
    simp only [docInitE, hinit, hfirst]

theorem C5_raw_document_construction_witness :
    (docInitE now0 [("s1", .stringField (.str "") true Option.none)] Option.none
        (some [("s1", PyVal.str " kept ")]) = .ok [("s1", PyVal.str " kept ")] ∧
      [("s1", PyVal.str " kept ")] =
        ([("s1", FieldKind.stringField (.str "") true Option.none)] : Catalog).map
          (fun p => (p.1, (alookup [("s1", PyVal.str " kept ")] p.1).getD .none))) ∧
    docInitE now0 [("dic", .dictField (.pydict []) false)] Option.none
        (some [("dic", PyVal.str "1234")])
      = .error (.validation "dic" ((alookup [("dic", PyVal.str "1234")] "dic").getD .none)) := by
  have hinit : docInitE now0 [("s1", .stringField (.str "") true Option.none)] Option.none
      (some [("s1", PyVal.str " kept ")]) = .ok [("s1", PyVal.str " kept ")] := by
    simp [docInitE, initFields, initVal, docValidateE, validateE, toPythonE, strValidate,
      dTruthy, alookup, pyStrip]
  refine ⟨⟨hinit, ?_⟩, ?_⟩
  · exact (C5_raw_document_construction now0
      [("s1", .stringField (.str "") true Option.none)] [("s1", PyVal.str " kept ")]
      (by decide)).2.1 _ hinit
  · exact (C5_raw_document_construction now0
      [("dic", .dictField (.pydict []) false)] [("dic", PyVal.str "1234")]
      (by decide)).2.2 "dic" (.dictField (.pydict []) false) (.str "1234")
      (by simp) (by simp [alookup]) (by simp [toPythonE, alookup])
      (by simp [validateE]) (by
        intro p hp hne
        simp at hp
        rw [hp] at hne
        simp at hne)

/-! ### C3 -/

theorem seedOrDefault_noData (now : DT) (f : String) (k : FieldKind) :
    seedOrDefault now Option.none f k = fieldDefault now k := by
  simp [seedOrDefault, dTruthy]

theorem strict_falsy_default_fails (now : DT) (k : FieldKind) (s : PyVal)
    (hstrict : strictKind k = true) (hblank : kindBlank k = false)
    (hdef : (fieldDefault now k).truthy = false)
    (hs : toStorageE k (fieldDefault now k) = .ok s) :
    ∃ pv, toPythonE now k s = .ok pv ∧ validateE now k pv = .error .assertion := by
  cases k with
  | field d b =>
      simp only [fieldDefault] at hdef hs
      simp only [toStorageE] at hs
      injection hs with hs
      subst hs
      simp only [kindBlank] at hblank
      subst hblank
      exact ⟨d, by simp [toPythonE], by simp [validateE, hdef]⟩
  | stringField d b len =>
      simp only [fieldDefault] at hdef hs
      simp only [kindBlank] at hblank
      subst hblank
      cases d with
      | str s₀ =>
          simp only [toStorageE] at hs
          injection hs with hs
          subst hs
          have h0 : s₀ = "" := (String.isEmpty_iff s₀).mp
            (by simpa [PyVal.truthy] using hdef)
          subst h0
          have hps : pyStrip "" = "" := by decide
          refine ⟨.str (pyStrip ""), by simp [toPythonE], ?_⟩
          have he : "".isEmpty = true := rfl
          simp [validateE, strValidate, hps, he]
      | none => simp [toStorageE, fieldDefault] at hs
      | int n => simp [toStorageE, fieldDefault] at hs
      | dt t => simp [toStorageE, fieldDefault] at hs
      | pydict l => simp [toStorageE, fieldDefault] at hs
      | pylist l => simp [toStorageE, fieldDefault] at hs
      | doc c dd => simp [toStorageE, fieldDefault] at hs
  | emailField d b len =>
      simp only [fieldDefault] at hdef hs
      simp only [kindBlank] at hblank
      subst hblank
      cases d with
      | str s₀ =>
          simp only [toStorageE] at hs
          injection hs with hs
          subst hs
          have h0 : s₀ = "" := (String.isEmpty_iff s₀).mp
            (by simpa [PyVal.truthy] using hdef)
          subst h0
          have hps : pyStrip "" = "" := by decide
          refine ⟨.str (pyStrip ""), by simp [toPythonE], ?_⟩
          have he : "".isEmpty = true := rfl
          simp [validateE, strValidate, hps, he]
      | none => simp [toStorageE, fieldDefault] at hs
      | int n => simp [toStorageE, fieldDefault] at hs
      | dt t => simp [toStorageE, fieldDefault] at hs
      | pydict l => simp [toStorageE, fieldDefault] at hs
      | pylist l => simp [toStorageE, fieldDefault] at hs
      | doc c dd => simp [toStorageE, fieldDefault] at hs
  | dateTimeField d b auto =>
      simp only [kindBlank] at hblank
      subst hblank
      cases auto with
      | some a => simp [fieldDefault, PyVal.truthy] at hdef
      | none =>
          simp only [fieldDefault] at hdef hs
          rw [if_neg (by simp)] at hdef hs
          have hres : s = PyVal.none := by
            cases d with
            | dt t => simp [PyVal.truthy] at hdef
            | doc c dd => simp [PyVal.truthy] at hdef
            | none =>
                simp [toStorageE, PyVal.truthy] at hs
                exact hs.symm
            | str s₀ =>
                simp [toStorageE, PyVal.truthy] at hs hdef
                simp [hdef] at hs
                exact hs.symm
            | int n =>
                simp [toStorageE, PyVal.truthy] at hs hdef
                simp [hdef] at hs
                exact hs.symm
            | pydict l =>
                simp [toStorageE, PyVal.truthy] at hs hdef
                simp [hdef] at hs
                exact hs.symm
            | pylist l =>
                simp [toStorageE, PyVal.truthy] at hs hdef
                simp [hdef] at hs
                exact hs.symm
          subst hres
          exact ⟨.none, by simp [toPythonE], by simp [validateE, PyVal.truthy]⟩
  | dictField d b =>
      simp only [fieldDefault] at hdef hs
      simp only [kindBlank] at hblank
      subst hblank
      simp only [toStorageE] at hs
      injection hs with hs
      subst hs
      refine ⟨d, by simp [toPythonE], ?_⟩
      cases d with
      | pydict l =>
          simp [PyVal.truthy] at hdef
          simp [validateE, hdef]
      | none => simp [validateE]
      | str s₀ => simp [validateE]
      | int n => simp [validateE]
      | dt t => simp [validateE]
      | pylist l => simp [validateE]
      | doc c dd => simp [validateE]
  | documentField d b c cc => simp [strictKind] at hstrict
  | listField d b elem =>
      simp only [fieldDefault] at hdef hs
      simp only [kindBlank] at hblank
      subst hblank
      cases elem with
      | none =>
          simp only [toStorageE] at hs
          injection hs with hs
          subst hs
          refine ⟨d, by simp [toPythonE], ?_⟩
          cases d with
          | pylist l =>
              simp [PyVal.truthy] at hdef
              simp [validateE, hdef]
          | none => simp [validateE]
          | str s₀ => simp [validateE]
          | int n => simp [validateE]
          | dt t => simp [validateE]
          | pydict l => simp [validateE]
          | doc c dd => simp [validateE]
      | some f =>
          cases d with
          | pylist l =>
              have h0 : l = [] := by
                simp [PyVal.truthy] at hdef
                exact hdef
              subst h0
              simp only [toStorageE, storageList] at hs
              injection hs with hs
              subst hs
              exact ⟨.pylist [], by simp [toPythonE, pythonList],
                by simp [validateE, validateList]⟩
          | none => simp [toStorageE, fieldDefault] at hs
          | str s₀ => simp [toStorageE, fieldDefault] at hs
          | int n => simp [toStorageE, fieldDefault] at hs
          | dt t => simp [toStorageE, fieldDefault] at hs
          | pydict l => simp [toStorageE, fieldDefault] at hs
          | doc c dd => simp [toStorageE, fieldDefault] at hs

theorem preSavePass_noop (now : DT) :
    ∀ (cat : Catalog) (dat : DocData),
      (∀ p ∈ cat, (preSaveVal now p.2).truthy = false) →
      preSavePass now cat dat = .ok dat := by
  intro cat
  induction cat with
  | nil => intro dat _; simp [preSavePass]
  | cons p t ih =>
      obtain ⟨fname, k⟩ := p
      intro dat h
      have h0 : (preSaveVal now k).truthy = false := h (fname, k) (by simp)
      simp only [preSavePass, h0, Bool.false_eq_true, if_false]
      exact ih dat (fun p hp => h p (by simp [hp]))

/-- C3 (as stated) is false: a non-blank text field with the valid
truthy default `"x"` is filled by its default, so constructing with no
arguments does not raise *and* `save()` on the unmodified instance does
not raise either, where the claim requires a `ValidationFailure` on
save for every non-blank field not supplied by the caller. -/
theorem C3_counterexample :
    kindBlank (.stringField (.str "x") false Option.none) = false ∧
    docInitE now0 [("_id", idField), ("s", .stringField (.str "x") false Option.none)]
        Option.none Option.none
      = .ok [("_id", PyVal.none), ("s", PyVal.str "x")] ∧
    saveE now0 [("_id", idField), ("s", .stringField (.str "x") false Option.none)]
        [("_id", PyVal.none), ("s", PyVal.str "x")]
      = .ok [("_id", PyVal.none), ("s", PyVal.str "x")] := by
  refine ⟨rfl, ?_, ?_⟩
  · simp [docInitE, initFields, initVal, docValidateE, validateE, toPythonE, toStorageE,
      strValidate, fieldDefault, preSaveVal, dTruthy, alookup, idField, PyVal.truthy,
      pyStrip, show ("x".isEmpty = false) from rfl,
      show (pyStrip "x" = "x") from by decide]
  · simp [saveE, preSavePass, preSaveVal, docValidateE, validateE, toPythonE,
      strValidate, alookup, idField, PyVal.truthy, pyStrip,
      show ("x".isEmpty = false) from rfl, show (pyStrip "x" = "x") from by decide]

/-- C3 (amended): for a non-blank field of any built-in kind other than
a nested document, whose (evaluated) default is falsy, constructing an
entity with no arguments does not raise — the field is exempted — while
`save()` on that same unmodified instance raises a `ValidationFailure`
for that field (given that the remaining fields construct and validate
cleanly and no `pre_save` hook fires). -/
theorem C3_unsupplied_nonblank_field (now : DT) (cat : Catalog) (fname : String)
    (k : FieldKind)
    (hnd : (cat.map Prod.fst).Nodup)
    (hlk : alookup cat fname = some k)
    (hstrict : strictKind k = true)
    (hblank : kindBlank k = false)
    (hdef : (fieldDefault now k).truthy = false)
    (hall : ∀ p ∈ cat, ∃ s, storedOf now Option.none p.1 p.2 = .ok s)
    (hcons : ∀ p ∈ cat, (fieldDefault now p.2).truthy = true →
      ∃ pv, toPythonE now p.2 (okVal (storedOf now Option.none p.1 p.2)) = .ok pv ∧
        validateE now p.2 pv = .ok ())
    (hpre : ∀ p ∈ cat, (preSaveVal now p.2).truthy = false)
    (hsave : ∀ p ∈ cat, p.1 ≠ fname →
      ∃ pv, toPythonE now p.2 (okVal (storedOf now Option.none p.1 p.2)) = .ok pv ∧
        validateE now p.2 pv = .ok ()) :
    docInitE now cat Option.none Option.none =
      .ok (cat.map fun p => (p.1, okVal (storedOf now Option.none p.1 p.2))) ∧
    saveE now cat (cat.map fun p => (p.1, okVal (storedOf now Option.none p.1 p.2)))
      = .error (.validation fname (okVal (storedOf now Option.none fname k))) := by
  have hson : dTruthy (Option.none : Option DocData) = false := rfl
  have hinit := initFields_sonFalsy_eq now Option.none Option.none hson cat hall
  constructor
  · simp only [docInitE, hinit]
    have hvalok : docValidateE now
        (cat.map fun p => (p.1, okVal (storedOf now Option.none p.1 p.2)))
        ((cat.filter fun p => !(seedOrDefault now Option.none p.1 p.2).truthy).map
          Prod.fst) cat = .ok () := by
      apply docValidateE_ok_of
      intro p hp
      have hplk : alookup cat p.1 = some p.2 :=
        alookup_of_mem_nodup hnd (by cases p; exact hp)
      by_cases ht : (fieldDefault now p.2).truthy
      · right
        obtain ⟨pv, hpy, hval⟩ := hcons p hp ht
        refine ⟨okVal (storedOf now Option.none p.1 p.2), pv, ?_, hpy, hval⟩
        rw [alookup_map_snd cat (fun f kk => okVal (storedOf now Option.none f kk)) p.1,
          hplk]
        rfl
      · left
        refine (mem_keys_filter_nodup cat _ hnd p.1 p.2 hplk).mpr ?_
        simp [seedOrDefault_noData]
        simpa using ht
    rw [hvalok]
  · obtain ⟨s₀, hs₀⟩ := hall (fname, k) (mem_of_alookup hlk)
    have hov : okVal (storedOf now Option.none fname k) = s₀ := by
      rw [show storedOf now Option.none fname k = Except.ok s₀ from hs₀]
      rfl
    have hfail := strict_falsy_default_fails now k s₀ hstrict hblank hdef (by
      have := hs₀
      rw [storedOf, seedOrDefault_noData] at this
      exact this)
    obtain ⟨pv, hpy, hval⟩ := hfail
    simp only [saveE, preSavePass_noop now cat _ hpre]
    obtain ⟨pre, post, hcat, hnp⟩ := alookup_split hlk
    subst hcat
    have hlkm : alookup ((pre ++ (fname, k) :: post).map
        fun p => (p.1, okVal (storedOf now Option.none p.1 p.2))) fname = some s₀ := by
      rw [alookup_map_snd _ (fun f kk => okVal (storedOf now Option.none f kk)) fname,
        hlk]
      simp [hov]
    have hpreval : ∀ p ∈ pre, p.1 ∈ ([] : List String) ∨
        ∃ raw' pv', alookup ((pre ++ (fname, k) :: post).map
            fun p => (p.1, okVal (storedOf now Option.none p.1 p.2))) p.1 = some raw' ∧
          toPythonE now p.2 raw' = .ok pv' ∧ validateE now p.2 pv' = .ok () := by
      intro p hp
      right
      have hpcat : p ∈ pre ++ (fname, k) :: post := List.mem_append.mpr (Or.inl hp)
      have hpne : p.1 ≠ fname := by
        intro hh
        exact hnp (hh ▸ List.mem_map.mpr ⟨p, hp, rfl⟩)
      have hplk : alookup (pre ++ (fname, k) :: post) p.1 = some p.2 :=
        alookup_of_mem_nodup hnd (by cases p; exact hpcat)
      obtain ⟨pv', hpy', hval'⟩ := hsave p hpcat hpne
      refine ⟨okVal (storedOf now Option.none p.1 p.2), pv', ?_, hpy', hval'⟩
      rw [alookup_map_snd _ (fun f kk => okVal (storedOf now Option.none f kk)) p.1,
        hplk]
      rfl
    have hfirst := docValidateE_first_failure now
      ((pre ++ (fname, k) :: post).map
        fun p => (p.1, okVal (storedOf now Option.none p.1 p.2)))
      [] fname k s₀ pre post hpreval (by simp) hlkm
      (Or.inr ⟨pv, hpy, hval⟩)
    rw [hov, hfirst]

theorem C3_unsupplied_nonblank_field_witness :
    docInitE now0 [("_id", idField), ("nbl", FieldKind.field .none false)]
        Option.none Option.none
      = .ok [("_id", PyVal.none), ("nbl", PyVal.none)] ∧
    saveE now0 [("_id", idField), ("nbl", FieldKind.field .none false)]
        [("_id", PyVal.none), ("nbl", PyVal.none)]
      = .error (.validation "nbl" PyVal.none) := by
  have hov : ∀ f b, okVal (storedOf now0 Option.none f (FieldKind.field .none b))
      = PyVal.none := by
    intro f b
    simp [okVal, storedOf, seedOrDefault, dTruthy, fieldDefault, toStorageE]
  have h := C3_unsupplied_nonblank_field now0
    [("_id", idField), ("nbl", FieldKind.field .none false)] "nbl"
    (.field .none false)
    (by simp) (by simp [alookup, idField]) rfl rfl rfl
    (by
      intro p hp
      simp [idField] at hp
      rcases hp with hp | hp <;>
        exact ⟨PyVal.none, by rw [hp]; simp [storedOf, seedOrDefault, dTruthy,
          fieldDefault, toStorageE]⟩)
    (by
      intro p hp ht
      simp [idField] at hp
      rcases hp with hp | hp <;> (rw [hp] at ht; simp [fieldDefault, PyVal.truthy] at ht))
    (by
      intro p hp
      simp [idField] at hp
      rcases hp with hp | hp <;> (rw [hp]; simp [preSaveVal, PyVal.truthy]))
    (by
      intro p hp hne
      simp [idField] at hp
      rcases hp with hp | hp
      · rw [hp]
        exact ⟨PyVal.none, by simp [hov, toPythonE], by simp [validateE, PyVal.truthy]⟩
      · rw [hp] at hne
        simp at hne)
  obtain ⟨h1, h2⟩ := h
  constructor
  · rw [h1]
    simp [idField, hov "_id" true, hov "nbl" false]
  · rw [show ([("_id", PyVal.none), ("nbl", PyVal.none)] : DocData)
      = [("_id", idField), ("nbl", FieldKind.field .none false)].map
          (fun p => (p.1, okVal (storedOf now0 Option.none p.1 p.2))) from by
        simp [idField, hov "_id" true, hov "nbl" false]]
    rw [h2]
    rw [hov "nbl" false]

/-! ### C2 -/

theorem expectedRTList_eq_map (f : FieldKind) :
    ∀ l : List PyVal, expectedRTList f l = l.map (expectedRT f) := by
  intro l
  induction l with
  | nil => simp [expectedRTList]
  | cons v t ih => simp [expectedRTList, ih]

theorem validateList_ok_forall (now : DT) (f : FieldKind) :
    ∀ l : List PyVal, validateList now f l = .ok () →
      ∀ v ∈ l, validateE now f v = .ok () := by
  intro l
  induction l with
  | nil => intro _ v hv; simp at hv
  | cons w t ih =>
      intro h v hv
      simp only [validateList] at h
      cases hw : validateE now f w with
      | error e => simp [hw] at h
      | ok u =>
          simp only [hw] at h
          rcases List.mem_cons.mp hv with heq | hv'
          · rw [heq]
            cases u
            exact hw
          · exact ih h v hv'

theorem wfList_forall (f : FieldKind) :
    ∀ l : List PyVal, wfList f l = true → ∀ v ∈ l, wfAligned f v = true := by
  intro l
  induction l with
  | nil => intro _ v hv; simp at hv
  | cons w t ih =>
      intro h v hv
      simp only [wfList, Bool.and_eq_true] at h
      rcases List.mem_cons.mp hv with heq | hv'
      · rw [heq]; exact h.1
      · exact ih h.2 v hv'

theorem map_lookup_self :
    ∀ (cat : Catalog) (d : DocData), (d.map Prod.fst).Nodup →
      cat.map Prod.fst = d.map Prod.fst →
      cat.map (fun p => (p.1, (alookup d p.1).getD .none)) = d := by
  intro cat
  induction cat with
  | nil =>
      intro d _ hkeys
      cases d with
      | nil => simp
      | cons p t => simp at hkeys
  | cons p t ih =>
      obtain ⟨f, k⟩ := p
      intro d hnd hkeys
      cases d with
      | nil => simp at hkeys
      | cons q d' =>
          obtain ⟨f₀, v₀⟩ := q
          simp only [List.map_cons, List.cons.injEq] at hkeys
          obtain ⟨hf, hkeys'⟩ := hkeys
          subst hf
          rw [List.map_cons, List.nodup_cons] at hnd
          rw [List.map_cons]
          have hagree : ∀ p ∈ t,
              (fun p => (p.1, (alookup ((f, v₀) :: d') p.1).getD PyVal.none)) p
                = (fun p => (p.1, (alookup d' p.1).getD PyVal.none)) p := by
            intro p hp
            have hp1 : p.1 ∈ d'.map Prod.fst := by
              rw [← hkeys']
              exact List.mem_map.mpr ⟨p, hp, rfl⟩
            have hne : f ≠ p.1 := by
              intro hh
              exact hnd.1 (hh ▸ hp1)
            simp [alookup, hne]
          congr 1
          · simp [alookup]
          · rw [List.map_congr_left hagree]
            exact ih d' hnd.2 hkeys'

theorem docInit_of_validate (now : DT) (cat : Catalog) (d : DocData)
    (hnd : (cat.map Prod.fst).Nodup)
    (hkeys : d.map Prod.fst = cat.map Prod.fst)
    (hval : docValidateE now d [] cat = .ok ()) :
    docInitE now cat Option.none (some d) = .ok d := by
  cases d with
  | nil =>
      cases cat with
      | nil => simp [docInitE, initFields, docValidateE]
      | cons p t => simp at hkeys
  | cons q d' =>
      have hne : ((q :: d' : DocData)).isEmpty = false := by simp [List.isEmpty]
      have hdnd : ((q :: d').map Prod.fst).Nodup := by
        rw [hkeys]
        exact hnd
      have hok : ∀ p ∈ cat, ∀ raw, alookup (q :: d') p.1 = some raw →
          ∃ pv, toPythonE now p.2 raw = .ok pv := by
        intro p hp raw hraw
        obtain ⟨raw', pv, hlk', hpy', _⟩ :=
          docValidateE_ok_forall now (q :: d') [] cat hval p hp (by simp)
        rw [hraw] at hlk'
        injection hlk' with hh
        exact ⟨pv, hh ▸ hpy'⟩
      have hinit := initFields_sonTruthy_eq now Option.none (q :: d') hne cat hok
      have hmap := map_lookup_self cat (q :: d') hdnd hkeys.symm
      rw [hmap] at hinit
      simp only [docInitE, hinit, hval]

theorem C2_aux : ∀ (n : Nat) (k : FieldKind) (v : PyVal) (now : DT),
    sizeOf k ≤ n → kindWF k = true → wfAligned k v = true →
    validateE now k v = .ok () →
    ∃ sv, toStorageE k v = .ok sv ∧ toPythonE now k sv = .ok (expectedRT k v) := by
  intro n
  induction n with
  | zero =>
      intro k v now hsz _ _ _
      exfalso
      cases k <;> simp at hsz
  | succ n ih =>
      intro k v now hsz hwf hal hval
      cases k with
      | field d b =>
          exact ⟨v, by simp [toStorageE], by simp [toPythonE, expectedRT]⟩
      | stringField d b len =>
          cases v with
          | str s =>
              exact ⟨.str (pyStrip s), by simp [toStorageE],
                by simp [toPythonE, expectedRT]⟩
          | none => simp [validateE, strValidate] at hval
          | int m => simp [validateE, strValidate] at hval
          | dt t => simp [validateE, strValidate] at hval
          | pydict l => simp [validateE, strValidate] at hval
          | pylist l => simp [validateE, strValidate] at hval
          | doc c dd => simp [validateE, strValidate] at hval
      | emailField d b len =>
          cases v with
          | str s =>
              exact ⟨.str (pyStrip s), by simp [toStorageE],
                by simp [toPythonE, expectedRT]⟩
          | none => simp [validateE, strValidate] at hval
          | int m => simp [validateE, strValidate] at hval
          | dt t => simp [validateE, strValidate] at hval
          | pydict l => simp [validateE, strValidate] at hval
          | pylist l => simp [validateE, strValidate] at hval
          | doc c dd => simp [validateE, strValidate] at hval
      | dateTimeField d b auto =>
          cases v with
          | dt t =>
              exact ⟨.dt (milli_trim t), by simp [toStorageE, PyVal.truthy],
                by simp [toPythonE, expectedRT]⟩
          | none =>
              exact ⟨.none, by simp [toStorageE, PyVal.truthy],
                by simp [toPythonE, expectedRT]⟩
          | str s => simp [validateE, PyVal.truthy] at hval
          | int m => simp [validateE, PyVal.truthy] at hval
          | pydict l => simp [validateE, PyVal.truthy] at hval
          | pylist l => simp [validateE, PyVal.truthy] at hval
          | doc c dd => simp [validateE, PyVal.truthy] at hval
      | dictField d b =>
          cases v with
          | pydict l =>
              exact ⟨.pydict l, by simp [toStorageE], by simp [toPythonE, expectedRT]⟩
          | none => simp [validateE] at hval
          | str s => simp [validateE] at hval
          | int m => simp [validateE] at hval
          | dt t => simp [validateE] at hval
          | pylist l => simp [validateE] at hval
          | doc c dd => simp [validateE] at hval
      | documentField d b cls cat =>
          cases v with
          | doc c dd =>
              have hal' : c = cls ∧ dd.map Prod.fst = cat.map Prod.fst := by
                simpa [wfAligned] using hal
              obtain ⟨rfl, hkeys⟩ := hal'
              have hnd : (cat.map Prod.fst).Nodup := by
                simpa [kindWF] using hwf
              have hval' : docValidateE now dd [] cat = .ok () := by
                simpa [validateE, PyVal.truthy] using hval
              refine ⟨.pydict dd, by simp [toStorageE], ?_⟩
              simp [toPythonE, docInit_of_validate now cat dd hnd hkeys hval',
                expectedRT]
          | none => simp [wfAligned] at hal
          | str s => simp [wfAligned] at hal
          | int m => simp [wfAligned] at hal
          | dt t => simp [wfAligned] at hal
          | pydict l => simp [wfAligned] at hal
          | pylist l => simp [wfAligned] at hal
      | listField d b elem =>
          cases elem with
          | none =>
              exact ⟨v, by simp [toStorageE], by simp [toPythonE, expectedRT]⟩
          | some f =>
              cases v with
              | pylist l =>
                  have hwf' : kindWF f = true := by simpa [kindWF] using hwf
                  have hal' : wfList f l = true := by simpa [wfAligned] using hal
                  have hvl : validateList now f l = .ok () := by
                    simp only [validateE] at hval
                    split at hval
                    · simp at hval
                    · exact hval
                  have hszf : sizeOf f ≤ n := by
                    simp at hsz
                    omega
                  have hsub : ∀ (l' : List PyVal),
                      (∀ w ∈ l', validateE now f w = .ok ()) →
                      (∀ w ∈ l', wfAligned f w = true) →
                      ∃ sl, storageList f l' = .ok sl ∧
                        pythonList now f sl = .ok (l'.map (expectedRT f)) := by
                    intro l'
                    induction l' with
                    | nil =>
                        exact fun _ _ => ⟨[], by simp [storageList],
                          by simp [pythonList]⟩
                    | cons w t iht =>
                        intro hv hw
                        obtain ⟨sw, hsw, hpw⟩ := ih f w now hszf hwf'
                          (hw w (by simp)) (hv w (by simp))
                        obtain ⟨st, hst, hpt⟩ := iht
                          (fun x hx => hv x (by simp [hx]))
                          (fun x hx => hw x (by simp [hx]))
                        exact ⟨sw :: st, by simp [storageList, hsw, hst],
                          by simp [pythonList, hpw, hpt]⟩
                  obtain ⟨sl, hsl, hpl⟩ := hsub l
                    (validateList_ok_forall now f l hvl)
                    (wfList_forall f l hal')
                  refine ⟨.pylist sl, by simp [toStorageE, hsl], ?_⟩
                  simp [toPythonE, hpl, expectedRT, expectedRTList_eq_map]
              | none => simp [validateE] at hval
              | str s => simp [validateE] at hval
              | int m => simp [validateE] at hval
              | dt t => simp [validateE] at hval
              | pydict l => simp [validateE] at hval
              | doc c dd => simp [validateE] at hval

/-- C2 (as stated) is false for text fields: `"a "` is accepted by a
plain non-blank `StringField.validate`, but
`to_python(to_storage("a "))` is the stripped `"a" ≠ "a "`. -/
theorem C2_counterexample :
    validateE now0 (.stringField (.str "") false Option.none) (.str "a ") = .ok () ∧
    toStorageE (.stringField (.str "") false Option.none) (.str "a ")
      = .ok (.str "a") ∧
    toPythonE now0 (.stringField (.str "") false Option.none) (.str "a")
      = .ok (.str "a") ∧
    PyVal.str "a" ≠ PyVal.str "a " := by
  refine ⟨?_, ?_, ?_, ?_⟩
  · simp [validateE, strValidate, show pyStrip "a " = "a" from by decide,
      show ("a".isEmpty = false) from rfl]
  · simp [toStorageE, show pyStrip "a " = "a" from by decide]
  · simp [toPythonE]
  · simp

/-- C2 (amended): for every built-in field kind and every value its
`validate` accepts (document values aligned with their catalogs, see
`wfAligned`; catalogs duplicate-free, see `kindWF`), `to_storage`
succeeds and `to_python (to_storage v)` succeeds returning
`expectedRT k v`: `v` itself for base, dict, nested-document and
element-kind-less sequence fields; `v` stripped of surrounding
whitespace for text/email fields; `v` with `milli_trim` applied to its
microseconds for timestamp fields (which by C1 does *not* round down to
whole milliseconds); and the element-wise transform for sequences with
an element descriptor. -/
theorem C2_roundtrip_amended (now : DT) (k : FieldKind) (v : PyVal)
    (hwf : kindWF k = true) (hal : wfAligned k v = true)
    (hval : validateE now k v = .ok ()) :
    ∃ sv, toStorageE k v = .ok sv ∧ toPythonE now k sv = .ok (expectedRT k v) :=
  C2_aux (sizeOf k) k v now le_rfl hwf hal hval

theorem C2_roundtrip_amended_witness :
    kindWF (.dateTimeField .none false Option.none) = true ∧
    wfAligned (.dateTimeField .none false Option.none)
      (.dt ⟨0, 123456, true⟩) = true ∧
    validateE now0 (.dateTimeField .none false Option.none)
      (.dt ⟨0, 123456, true⟩) = .ok () ∧
    ∃ sv, toStorageE (.dateTimeField .none false Option.none)
        (.dt ⟨0, 123456, true⟩) = .ok sv ∧
      toPythonE now0 (.dateTimeField .none false Option.none) sv
        = .ok (expectedRT (.dateTimeField .none false Option.none)
            (.dt ⟨0, 123456, true⟩)) := by
  have h1 : kindWF (.dateTimeField .none false Option.none) = true := by
    simp [kindWF]
  have h2 : wfAligned (.dateTimeField .none false Option.none)
      (.dt ⟨0, 123456, true⟩) = true := by
    simp [wfAligned]
  have h3 : validateE now0 (.dateTimeField .none false Option.none)
      (.dt ⟨0, 123456, true⟩) = .ok () := by
    simp [validateE, PyVal.truthy]
  exact ⟨h1, h2, h3, C2_roundtrip_amended now0 _ _ h1 h2 h3⟩
